import Mathlib

/-!
The go-pool library: a channel-backed pool of closable connections.

A shallow embedding of `Conn.go` and `channel_pool.go`, run sequentially (one
goroutine; the mutexes are then no-ops and are not modelled).

* A `Conn` interface value is `nil` or a resource, named by a number.
* The buffered channel is a FIFO list with a capacity.
* The factory `InstanceConn` is an external stateful function: its answer at
  its k-th invocation is `f k`; the world counts the invocations.
* A resource's own `Close` is external as well: its answer is given by the
  environment from the log of earlier resource-level closes; the world keeps
  that log.
* Go panics (calling a nil func, calling `Close` on a nil interface) and a
  send that would block forever are outcomes of their own.
-/

namespace GoPool

/-- Go `error` values produced by the pool, by the factory or by a resource. -/
inductive Error where
  /-- The error of `errors.New` in the parameter check of `NewChannelPool`. -/
  | invalidParams : Error
  /-- The error of `fmt.Errorf` around a factory error in `NewChannelPool`. -/
  | instanceFailed (cause : Error) : Error
  /-- The error `errPoolClosed` of `Get`. -/
  | poolClosed : Error
  /-- The error of `put` for a nil connection. -/
  | nilConn : Error
  /-- An error made outside the pool (factory or resource), with a code. -/
  | ext (code : Nat) : Error
  deriving DecidableEq, Repr

/-- A value of interface type `Conn` handed to the pool: nil (`none`) or a
resource with the given identity. -/
abbrev Conn := Option Nat

/-- The type `InstanceConn`, `func() (Conn, error)`: the pair returned by the
k-th invocation (counted from 0 over the whole run). -/
abbrev InstanceConn := Nat → Conn × Option Error

/-- What lies outside the pool: the behaviour of `Close` on the resources.
`connClose log r` is what `r.Close()` returns when `log` lists the
resource-level closes made so far. -/
structure Env where
  connClose : List Nat → Nat → Option Error

/-- The effects observed outside the pool. -/
structure World where
  /-- Number of factory invocations so far. -/
  calls : Nat
  /-- The resources on which `Close` was invoked, oldest first. -/
  closed : List Nat
  deriving DecidableEq, Repr

/-- A buffered `chan Conn`: its queued values, oldest first, and its capacity. -/
structure Chan where
  buf : List Conn
  cap : Nat
  deriving DecidableEq, Repr

/-- The struct `ChannelPool`; a nil channel or func field is `none`. -/
structure ChannelPool where
  connsChan : Option Chan
  instanceConn : Option InstanceConn

/-- The struct `ConnWrapper`. Its field `p` is the one pool of the run. -/
structure ConnWrapper where
  conn : Conn
  unusable : Bool
  deriving DecidableEq, Repr

/-- How a call ends: it returns, it panics, or it blocks forever. -/
inductive Outcome (α : Type) where
  | ok (a : α) : Outcome α
  | panicked : Outcome α
  | blocked : Outcome α
  deriving DecidableEq, Repr

/-- The call `r.Close()` on a resource: answer and logged effect. -/
def resClose (env : Env) (w : World) (r : Nat) : Option Error × World :=
  (env.connClose w.closed r, { w with closed := w.closed ++ [r] })

/-- The method `wrapConn`. -/
def wrapConn (conn : Conn) : ConnWrapper :=
  { conn := conn, unusable := false }

/-- The method `ChannelPool.put`. -/
def put (env : Env) (p : ChannelPool) (w : World) (conn : Conn) :
    Option Error × ChannelPool × World :=
  match conn with
  | none => (some Error.nilConn, p, w)
  | some r =>
    match p.connsChan with
    | none =>
      let res := resClose env w r
      (res.1, p, res.2)
    | some ch =>
      if ch.buf.length < ch.cap then
        (none, { p with connsChan := some { ch with buf := ch.buf ++ [some r] } }, w)
      else
        let res := resClose env w r
        (res.1, p, res.2)

/-- The method `ChannelPool.Get`: the returned `Conn` is nil or a wrapper. -/
def Get (env : Env) (p : ChannelPool) (w : World) :
    Outcome (Option ConnWrapper × Option Error) × ChannelPool × World :=
  match p.connsChan with
  | none => (Outcome.ok (none, some Error.poolClosed), p, w)
  | some ch =>
    match ch.buf with
    | conn :: rest =>
      let p1 : ChannelPool := { p with connsChan := some { ch with buf := rest } }
      match conn with
      | none => (Outcome.ok (none, some Error.poolClosed), p1, w)
      | some r => (Outcome.ok (some (wrapConn (some r)), none), p1, w)
    | [] =>
      match p.instanceConn with
      | none => (Outcome.panicked, p, w)
      | some f =>
        let res := f w.calls
        let w1 : World := { w with calls := w.calls + 1 }
        match res.2 with
        | some e => (Outcome.ok (none, some e), p, w1)
        | none =>
          let r2 := put env p w1 res.1
          (Outcome.ok (some (wrapConn res.1), none), r2.2.1, r2.2.2)

/-- The loop `for conn := range connsChan { conn.Close() }` over a closed
channel holding `buf`: a nil entry makes `conn.Close()` panic. -/
def drain (env : Env) : List Conn → World → Outcome Unit × World
  | [], w => (Outcome.ok (), w)
  | none :: _, w => (Outcome.panicked, w)
  | some r :: rest, w => drain env rest (resClose env w r).2

/-- The method `ChannelPool.Close`. -/
def Close (env : Env) (p : ChannelPool) (w : World) :
    Outcome Unit × ChannelPool × World :=
  let p1 : ChannelPool := { connsChan := none, instanceConn := none }
  match p.connsChan with
  | none => (Outcome.ok (), p1, w)
  | some ch =>
    let res := drain env ch.buf w
    (res.1, p1, res.2)

/-- The method `ChannelPool.Len`; `len` of a nil channel is 0. -/
def Len (p : ChannelPool) : Nat :=
  match p.connsChan with
  | none => 0
  | some ch => ch.buf.length

/-- The method `GetConnsChan`. -/
def GetConnsChan (p : ChannelPool) : Option Chan := p.connsChan

/-- The method `GetInstanceConnFunc`. -/
def GetInstanceConnFunc (p : ChannelPool) : Option InstanceConn := p.instanceConn

/-- The prefill loop of `NewChannelPool` with `n` iterations left; `c` is the
pool under construction. The send `c.connsChan <- conn` blocks on a full
buffer. -/
def fillLoop (env : Env) (f : Option InstanceConn) :
    Nat → ChannelPool → World → Outcome (Option ChannelPool × Option Error) × World
  | 0, c, w => (Outcome.ok (some c, none), w)
  | n + 1, c, w =>
    match f with
    | none => (Outcome.panicked, w)
    | some g =>
      let res := g w.calls
      let w1 : World := { w with calls := w.calls + 1 }
      match res.2 with
      | some e =>
        let cl := Close env c w1
        match cl.1 with
        | Outcome.ok _ => (Outcome.ok (none, some (Error.instanceFailed e)), cl.2.2)
        | Outcome.panicked => (Outcome.panicked, cl.2.2)
        | Outcome.blocked => (Outcome.blocked, cl.2.2)
      | none =>
        match c.connsChan with
        | none => (Outcome.blocked, w1)
        | some ch =>
          if ch.buf.length < ch.cap then
            fillLoop env f n { c with connsChan := some { ch with buf := ch.buf ++ [res.1] } } w1
          else (Outcome.blocked, w1)

/-- The function `NewChannelPool`. -/
def NewChannelPool (env : Env) (initialConnCount maxConnCount : Int)
    (instanceConnFunc : Option InstanceConn) (w : World) :
    Outcome (Option ChannelPool × Option Error) × World :=
  if initialConnCount < 0 ∨ maxConnCount ≤ 0 ∨ initialConnCount > maxConnCount then
    (Outcome.ok (none, some Error.invalidParams), w)
  else
    fillLoop env instanceConnFunc initialConnCount.toNat
      { connsChan := some { buf := [], cap := maxConnCount.toNat },
        instanceConn := instanceConnFunc } w

/-- The method `ConnWrapper.Close`, on the pool `p` the wrapper points to. -/
def ConnWrapper.Close (env : Env) (cw : ConnWrapper) (p : ChannelPool) (w : World) :
    Option Error × ChannelPool × World :=
  if cw.unusable then
    match cw.conn with
    | some r =>
      let res := resClose env w r
      (res.1, p, res.2)
    | none => (none, p, w)
  else put env p w cw.conn

/-- The method `ConnWrapper.MarkUnusable`. -/
def ConnWrapper.MarkUnusable (cw : ConnWrapper) : ConnWrapper :=
  { cw with unusable := true }

/-! ## Runs of client operations -/

/-- A pool, the world, and the wrappers handed out by `Get` so far. -/
structure Sys where
  pool : ChannelPool
  world : World
  wrappers : List ConnWrapper

/-- A client operation; wrappers are named by the order `Get` returned them. -/
inductive Op where
  | get : Op
  | wrapperClose (i : Nat) : Op
  | markUnusable (i : Nat) : Op
  | poolClose : Op
  deriving DecidableEq, Repr

/-- One client operation. A panic leaves the state reached when it was raised
(a client may recover it); an operation on a wrapper that was never handed out
does nothing. -/
def step (env : Env) (s : Sys) : Op → Sys
  | Op.get =>
    let res := Get env s.pool s.world
    match res.1 with
    | Outcome.ok (some cw, _) =>
      { pool := res.2.1, world := res.2.2, wrappers := s.wrappers ++ [cw] }
    | _ => { pool := res.2.1, world := res.2.2, wrappers := s.wrappers }
  | Op.wrapperClose i =>
    match s.wrappers.get? i with
    | none => s
    | some cw =>
      let res := ConnWrapper.Close env cw s.pool s.world
      { pool := res.2.1, world := res.2.2, wrappers := s.wrappers }
  | Op.markUnusable i =>
    match s.wrappers.get? i with
    | none => s
    | some cw => { s with wrappers := s.wrappers.set i cw.MarkUnusable }
  | Op.poolClose =>
    let res := Close env s.pool s.world
    { pool := res.2.1, world := res.2.2, wrappers := s.wrappers }

/-- The state right after construction: no wrapper handed out yet. -/
def Sys.init (p : ChannelPool) (w : World) : Sys :=
  { pool := p, world := w, wrappers := [] }

/-- A finite run of client operations. -/
def run (env : Env) (s : Sys) (ops : List Op) : Sys :=
  ops.foldl (step env) s

/-! ## Auxiliary notions -/

/-- The buffer of an open pool has capacity `m` and holds at most `m` values. -/
def Bounded (m : Nat) (p : ChannelPool) : Prop :=
  ∀ ch, p.connsChan = some ch → ch.cap = m ∧ ch.buf.length ≤ m

/-- The connections made by `n` successive factory calls starting at call `k`. -/
def produced (f : InstanceConn) (k n : Nat) : List Conn :=
  (List.range n).map (fun i => (f (k + i)).1)

/-- The values queued in the pool's channel; none when the channel is nil. -/
def bufOf (p : ChannelPool) : List Conn :=
  match p.connsChan with
  | none => []
  | some ch => ch.buf

/-- How often resource `r` sits in the buffer plus how often it was released. -/
def occurrences (r : Nat) (p : ChannelPool) (w : World) : Nat :=
  (bufOf p).count (some r) + w.closed.count r

/-- An open pool of capacity `m` within its capacity, with a nil-free buffer and
the factory `f`, all of whose wrappers hold a resource and are not marked. -/
def Ready (f : InstanceConn) (m : Nat) (s : Sys) : Prop :=
  ∃ ch, s.pool.connsChan = some ch ∧ ch.cap = m ∧ ch.buf.length ≤ m ∧
    (∀ c ∈ ch.buf, c ≠ none) ∧ s.pool.instanceConn = some f ∧
    ∀ cw ∈ s.wrappers, cw.unusable = false ∧ cw.conn ≠ none

/-- The buffer of an open pool holds no nil and its factory field is `fo`. -/
def Good (fo : Option InstanceConn) (p : ChannelPool) : Prop :=
  ∀ ch, p.connsChan = some ch → (∀ c ∈ ch.buf, c ≠ none) ∧ p.instanceConn = fo

/-- The connection held by the i-th wrapper handed out; nil when there is none. -/
def connAt (ws : List ConnWrapper) (i : Nat) : Conn :=
  match ws.get? i with
  | none => none
  | some cw => cw.conn

/-- A `Get` would take its overflow path: the pool is open and its buffer empty. -/
def overflows (p : ChannelPool) : Bool :=
  match p.connsChan with
  | none => false
  | some ch => ch.buf.isEmpty

/-- The run `ops` from `s` issues no `Get` on the overflow path and closes no
wrapper twice; `done` lists the wrappers on which `Close` was already called. -/
def admissible (env : Env) : Sys → List Nat → List Op → Bool
  | _, _, [] => true
  | s, done, Op.get :: rest =>
    !overflows s.pool && admissible env (step env s Op.get) done rest
  | s, done, Op.wrapperClose i :: rest =>
    !done.contains i && admissible env (step env s (Op.wrapperClose i)) (i :: done) rest
  | s, done, Op.markUnusable i :: rest =>
    admissible env (step env s (Op.markUnusable i)) done rest
  | s, done, Op.poolClose :: rest =>
    admissible env (step env s Op.poolClose) done rest

/-- Every resource has one owner: the buffer holds distinct non-nil resources,
the releases made since the log was `pre` are distinct, and the buffer, the
releases and the wrappers not yet closed (those not in `done`) share none. -/
def Owned (pre done : List Nat) (s : Sys) : Prop :=
  ∃ rs extra : List Nat, bufOf s.pool = rs.map some ∧ s.world.closed = pre ++ extra ∧
    rs.Nodup ∧ extra.Nodup ∧ (∀ r ∈ rs, r ∉ extra) ∧
    (∀ i r, i ∉ done → connAt s.wrappers i = some r → r ∉ rs ∧ r ∉ extra) ∧
    (∀ i j r, i ∉ done → j ∉ done →
      connAt s.wrappers i = some r → connAt s.wrappers j = some r → i = j)

/-! ## Concrete data for the examples -/

/-- An environment in which every resource closes without error. -/
def envOk : Env := { connClose := fun _ _ => none }

/-- An environment in which every resource-level close reports error 1. -/
def envFail : Env := { connClose := fun _ _ => some (Error.ext 1) }

/-- The world before anything happened. -/
def world0 : World := { calls := 0, closed := [] }

/-- A factory whose k-th call makes resource k without error. -/
def freshFactory : InstanceConn := fun k => (some k, none)

/-- A factory that always fails with error 9 and makes no connection. -/
def failFactory : InstanceConn := fun _ => (none, some (Error.ext 9))

/-- A factory whose k-th call makes resource k, except that the call of index 2
fails with error 9. -/
def failThird : InstanceConn := fun k => if k = 2 then (none, some (Error.ext 9)) else (some k, none)

/-- A factory that makes no connection and always fails with an error that
reads like the one `Get` reports for a closed pool. -/
def closedTextFactory : InstanceConn := fun _ => (none, some Error.poolClosed)

/-- A factory that returns a nil connection and a nil error. -/
def nilFactory : InstanceConn := fun _ => (none, none)

/-- An open pool of capacity 3 holding the resources 7 and 8. -/
def poolTwo : ChannelPool :=
  { connsChan := some { buf := [some 7, some 8], cap := 3 }, instanceConn := some freshFactory }

/-- The pool that `NewChannelPool 1 2` builds from the factory of fresh resources. -/
def poolOneOfTwo : ChannelPool :=
  { connsChan := some { buf := [some 0], cap := 2 }, instanceConn := some freshFactory }

/-- An open pool of capacity 1 with an empty buffer. -/
def poolEmpty (f : InstanceConn) : ChannelPool :=
  { connsChan := some { buf := [], cap := 1 }, instanceConn := some f }

end GoPool

namespace GoPool

/-! ## Acquire -/

/-- C1: on an open pool whose buffer holds n > 0 non-nil resources, `Get`
returns a wrapper and a nil error, leaves `Len` at n - 1, changes nothing in
the world (no factory call, no release), and the wrapped resource is the
non-nil head of the buffer as it was before the call. -/
theorem get_takes_idle (env : Env) (p : ChannelPool) (w : World) (ch : Chan) (n : Nat)
    (hopen : p.connsChan = some ch) (hlen : Len p = n) (hpos : 0 < n)
    (hnn : ∀ c ∈ ch.buf, c ≠ none) :
    ∃ cw : ConnWrapper,
      (Get env p w).1 = Outcome.ok (some cw, none) ∧
      Len (Get env p w).2.1 = n - 1 ∧
      (Get env p w).2.2 = w ∧
      cw.conn ∈ ch.buf ∧ cw.conn ≠ none ∧ cw.unusable = false ∧
      (Get env p w).2.1.connsChan = some { ch with buf := ch.buf.tail } := by
  simp only [Len, hopen] at hlen
  cases hb : ch.buf with
  | nil => simp [hb] at hlen; omega
  | cons c rest =>
    cases c with
    | none => exact absurd rfl (hnn none (by simp [hb]))
    | some r =>
      refine ⟨wrapConn (some r), ?_⟩
      simp [Get, hopen, hb, Len, wrapConn]
      simp [hb] at hlen
      omega

/-- Witness of C1 on a pool of capacity 3 holding resources 7 and 8. -/
theorem get_takes_idle_witness :
    ∃ cw : ConnWrapper,
      (Get envOk poolTwo world0).1 = Outcome.ok (some cw, none) ∧
      Len (Get envOk poolTwo world0).2.1 = 2 - 1 ∧
      (Get envOk poolTwo world0).2.2 = world0 ∧
      cw.conn ∈ [some 7, some 8] ∧ cw.conn ≠ none ∧ cw.unusable = false ∧
      (Get envOk poolTwo world0).2.1.connsChan = some { buf := [some 8], cap := 3 } :=
  get_takes_idle envOk poolTwo world0 { buf := [some 7, some 8], cap := 3 } 2 rfl rfl
    (by decide) (by decide)

/-- C2, as stated, fails: the pool built by `NewChannelPool 0 1` has `Len` 0,
the factory succeeds with resource 0, and after one `Get` the buffer holds
that resource, so `Len` is 1 and not 0. -/
theorem get_overflow_counterexample :
    (NewChannelPool envOk 0 1 (some freshFactory) world0).1
        = Outcome.ok (some (poolEmpty freshFactory), none) ∧
      Len (poolEmpty freshFactory) = 0 ∧
      (Get envOk (poolEmpty freshFactory) world0).1
        = Outcome.ok (some (wrapConn (some 0)), none) ∧
      (Get envOk (poolEmpty freshFactory) world0).2.1.connsChan
        = some { buf := [some 0], cap := 1 } ∧
      Len (Get envOk (poolEmpty freshFactory) world0).2.1 ≠ 0 := by
  refine ⟨rfl, rfl, rfl, rfl, ?_⟩
  decide

/-- C2, amended: on an open pool with `Len` 0 and a factory call that
succeeds, `Get` invokes the factory exactly once, releases nothing, and returns
the new connection wrapped with a nil error; a non-nil new resource is also
inserted into the buffer, so `Len` becomes 1, and a nil one is not inserted. -/
theorem get_overflow (env : Env) (p : ChannelPool) (w : World) (ch : Chan)
    (f : InstanceConn) (conn : Conn)
    (hopen : p.connsChan = some ch) (hcap : 0 < ch.cap) (hlen : Len p = 0)
    (hf : p.instanceConn = some f) (hok : f w.calls = (conn, none)) :
    (Get env p w).1 = Outcome.ok (some (wrapConn conn), none) ∧
      (Get env p w).2.2 = { w with calls := w.calls + 1 } ∧
      (∀ r, conn = some r →
        (Get env p w).2.1.connsChan = some { ch with buf := [some r] } ∧
        Len (Get env p w).2.1 = 1) ∧
      (conn = none → (Get env p w).2.1 = p ∧ Len (Get env p w).2.1 = 0) := by
  simp only [Len, hopen] at hlen
  have hb : ch.buf = [] := List.length_eq_zero.mp hlen
  cases conn with
  | none => simp [Get, hopen, hb, hf, hok, put, Len]
  | some r => simp [Get, hopen, hb, hf, hok, put, resClose, Len, hcap]

/-- Witness of the amended C2 on the empty pool of capacity 1. -/
theorem get_overflow_witness :
    (Get envOk (poolEmpty freshFactory) world0).1
        = Outcome.ok (some (wrapConn (some 0)), none) ∧
      (Get envOk (poolEmpty freshFactory) world0).2.2 = { world0 with calls := world0.calls + 1 } ∧
      (∀ r, some 0 = some r →
        (Get envOk (poolEmpty freshFactory) world0).2.1.connsChan
          = some { buf := [some r], cap := 1 } ∧
        Len (Get envOk (poolEmpty freshFactory) world0).2.1 = 1) ∧
      ((some 0 : Conn) = none → (Get envOk (poolEmpty freshFactory) world0).2.1
          = poolEmpty freshFactory ∧
        Len (Get envOk (poolEmpty freshFactory) world0).2.1 = 0) :=
  get_overflow envOk (poolEmpty freshFactory) world0 { buf := [], cap := 1 } freshFactory
    (some 0) rfl (by decide) rfl rfl rfl

/-! ## Release through the wrapper -/

/-- C3: on an open pool of capacity max, `Close` on a wrapper that holds a
non-nil resource and was never marked unusable appends the resource to the
buffer, so `Len` grows by exactly 1, and touches nothing else when `Len` is
below max; when `Len` equals max it leaves the pool as it is and invokes the
resource's own `Close` exactly once, returning its answer. -/
theorem wrapper_close_returns_to_pool (env : Env) (p : ChannelPool) (w : World)
    (ch : Chan) (cw : ConnWrapper) (r : Nat)
    (hopen : p.connsChan = some ch) (hconn : cw.conn = some r)
    (husable : cw.unusable = false) :
    (Len p < ch.cap →
        Len (cw.Close env p w).2.1 = Len p + 1 ∧
        (cw.Close env p w).2.1.connsChan = some { ch with buf := ch.buf ++ [some r] } ∧
        (cw.Close env p w).2.2 = w ∧
        (cw.Close env p w).1 = none) ∧
      (Len p = ch.cap →
        Len (cw.Close env p w).2.1 = Len p ∧
        (cw.Close env p w).2.1 = p ∧
        (cw.Close env p w).2.2 = { w with closed := w.closed ++ [r] } ∧
        (cw.Close env p w).1 = env.connClose w.closed r) := by
  constructor
  · intro h
    simp only [Len, hopen] at h
    simp [ConnWrapper.Close, husable, hconn, put, hopen, h, Len]
  · intro h
    simp only [Len, hopen] at h
    simp [ConnWrapper.Close, husable, hconn, put, hopen, h, Len, resClose]

/-- Witness of C3 on the pool of capacity 3 that holds two resources. -/
theorem wrapper_close_returns_to_pool_witness :
    (Len poolTwo < 3 →
        Len ((wrapConn (some 5)).Close envOk poolTwo world0).2.1 = Len poolTwo + 1 ∧
        ((wrapConn (some 5)).Close envOk poolTwo world0).2.1.connsChan
          = some { buf := [some 7, some 8] ++ [some 5], cap := 3 } ∧
        ((wrapConn (some 5)).Close envOk poolTwo world0).2.2 = world0 ∧
        ((wrapConn (some 5)).Close envOk poolTwo world0).1 = none) ∧
      (Len poolTwo = 3 →
        Len ((wrapConn (some 5)).Close envOk poolTwo world0).2.1 = Len poolTwo ∧
        ((wrapConn (some 5)).Close envOk poolTwo world0).2.1 = poolTwo ∧
        ((wrapConn (some 5)).Close envOk poolTwo world0).2.2
          = { world0 with closed := world0.closed ++ [5] } ∧
        ((wrapConn (some 5)).Close envOk poolTwo world0).1 = envOk.connClose world0.closed 5) :=
  wrapper_close_returns_to_pool envOk poolTwo world0 { buf := [some 7, some 8], cap := 3 }
    (wrapConn (some 5)) 5 rfl rfl rfl

/-- C4, as stated, fails: with a factory that returns a nil connection and a
nil error, `Get` on the empty pool built by `NewChannelPool 0 1` returns a
wrapper that holds nil; after `MarkUnusable`, `Close` on it returns nil and
the log of resource-level closes is still empty: no `Close` was invoked. -/
theorem unusable_close_counterexample :
    (NewChannelPool envOk 0 1 (some nilFactory) world0).1
        = Outcome.ok (some (poolEmpty nilFactory), none) ∧
      (Get envOk (poolEmpty nilFactory) world0).1
        = Outcome.ok (some (wrapConn none), none) ∧
      ((wrapConn none).MarkUnusable.Close envOk
        (Get envOk (poolEmpty nilFactory) world0).2.1
        (Get envOk (poolEmpty nilFactory) world0).2.2).2.2.closed = [] ∧
      ((wrapConn none).MarkUnusable.Close envOk
        (Get envOk (poolEmpty nilFactory) world0).2.1
        (Get envOk (poolEmpty nilFactory) world0).2.2).2.2.closed.length ≠ 1 := by
  refine ⟨rfl, rfl, rfl, ?_⟩
  decide

/-- C4, amended: after `MarkUnusable` has been called k + 1 times on a wrapper,
`Close` on it leaves the pool as it is, open or closed, and invokes no factory;
when the wrapper holds a non-nil resource it invokes that resource's own
`Close` exactly once and returns its answer, and when it holds nil it invokes
nothing and returns nil. On a pool with `Len` equal to n > 0, `Get`, then
`MarkUnusable` and `Close` on the wrapper just returned, leave `Len` at
n - 1. -/
theorem unusable_close_discards (env : Env) (p : ChannelPool) (w : World)
    (cw : ConnWrapper) (k : Nat) :
    ((ConnWrapper.MarkUnusable^[k + 1] cw).Close env p w).2.1 = p ∧
      ((ConnWrapper.MarkUnusable^[k + 1] cw).Close env p w).2.2.calls = w.calls ∧
      (∀ r, cw.conn = some r →
        ((ConnWrapper.MarkUnusable^[k + 1] cw).Close env p w).1 = env.connClose w.closed r ∧
        ((ConnWrapper.MarkUnusable^[k + 1] cw).Close env p w).2.2.closed = w.closed ++ [r]) ∧
      (cw.conn = none →
        ((ConnWrapper.MarkUnusable^[k + 1] cw).Close env p w).1 = none ∧
        ((ConnWrapper.MarkUnusable^[k + 1] cw).Close env p w).2.2 = w) ∧
      (∀ (ws : List ConnWrapper) (n : Nat), Len p = n → 0 < n →
        Len (run env { pool := p, world := w, wrappers := ws }
          [Op.get, Op.markUnusable ws.length, Op.wrapperClose ws.length]).pool = n - 1) := by
  have hmark : ∀ j : Nat, ∀ c : ConnWrapper,
      ConnWrapper.MarkUnusable^[j + 1] c = { conn := c.conn, unusable := true } := by
    intro j
    induction j with
    | zero => intro c; rfl
    | succ j ih =>
      intro c
      rw [Function.iterate_succ_apply, ih]
      rfl
  rw [hmark]
  refine ⟨?_, ?_, ?_, ?_, ?_⟩
  · cases hc : cw.conn <;> simp [ConnWrapper.Close]
  · cases hc : cw.conn <;> simp [ConnWrapper.Close, resClose]
  · intro r hr
    simp [ConnWrapper.Close, hr, resClose]
  · intro hr
    simp [ConnWrapper.Close, hr]
  · intro ws n hlen hpos
    cases hch : p.connsChan with
    | none => simp [Len, hch] at hlen; omega
    | some ch =>
      simp only [Len, hch] at hlen
      cases hb : ch.buf with
      | nil => simp [hb] at hlen; omega
      | cons c rest =>
        have hn : rest.length = n - 1 := by simp [hb] at hlen; omega
        cases c with
        | none => simp [run, step, Get, hch, hb, Len, hn]
        | some r =>
          simp [run, step, Get, hch, hb, Len, hn, ConnWrapper.MarkUnusable,
            ConnWrapper.Close, wrapConn]

/-- Witness of the amended C4: a wrapper of resource 5, marked once, closed on
the pool that holds two resources. -/
theorem unusable_close_discards_witness :
    ((ConnWrapper.MarkUnusable^[0 + 1] (wrapConn (some 5))).Close envFail poolTwo world0).2.1
        = poolTwo ∧
      ((ConnWrapper.MarkUnusable^[0 + 1] (wrapConn (some 5))).Close envFail poolTwo world0).2.2.calls
        = world0.calls ∧
      (∀ r, (wrapConn (some 5)).conn = some r →
        ((ConnWrapper.MarkUnusable^[0 + 1] (wrapConn (some 5))).Close envFail poolTwo world0).1
          = envFail.connClose world0.closed r ∧
        ((ConnWrapper.MarkUnusable^[0 + 1] (wrapConn (some 5))).Close envFail poolTwo
          world0).2.2.closed = world0.closed ++ [r]) ∧
      ((wrapConn (some 5)).conn = none →
        ((ConnWrapper.MarkUnusable^[0 + 1] (wrapConn (some 5))).Close envFail poolTwo world0).1
          = none ∧
        ((ConnWrapper.MarkUnusable^[0 + 1] (wrapConn (some 5))).Close envFail poolTwo world0).2.2
          = world0) ∧
      Len (run envFail { pool := poolTwo, world := world0, wrappers := [] }
        [Op.get, Op.markUnusable ([] : List ConnWrapper).length,
          Op.wrapperClose ([] : List ConnWrapper).length]).pool = 2 - 1 :=
  have h := unusable_close_discards envFail poolTwo world0 (wrapConn (some 5)) 0
  ⟨h.1, h.2.1, h.2.2.1, h.2.2.2.1, h.2.2.2.2 [] 2 rfl (by decide)⟩

/-! ## The capacity invariant -/

theorem Bounded.len_le {m : Nat} {p : ChannelPool} (h : Bounded m p) : Len p ≤ m := by
  unfold Len
  cases hch : p.connsChan with
  | none => simp
  | some ch => simpa using (h ch hch).2

theorem put_bounded (env : Env) {m : Nat} {p : ChannelPool} (h : Bounded m p)
    (w : World) (conn : Conn) : Bounded m (put env p w conn).2.1 := by
  cases conn with
  | none => simpa [put] using h
  | some r =>
    cases hch : p.connsChan with
    | none => simpa [put, hch] using h
    | some ch =>
      by_cases hlt : ch.buf.length < ch.cap
      · intro ch2 h2
        simp [put, hch, hlt] at h2
        subst h2
        have hc := (h ch hch).1
        simp only [List.length_append, List.length_singleton]
        exact ⟨hc, by omega⟩
      · simpa [put, hch, hlt] using h

theorem get_bounded (env : Env) {m : Nat} {p : ChannelPool} (h : Bounded m p)
    (w : World) : Bounded m (Get env p w).2.1 := by
  cases hch : p.connsChan with
  | none => simpa [Get, hch] using h
  | some ch =>
    cases hb : ch.buf with
    | cons c rest =>
      have hlen := (h ch hch).2
      have hc := (h ch hch).1
      rw [hb] at hlen
      simp only [List.length_cons] at hlen
      cases c with
      | none =>
        intro ch2 h2
        simp [Get, hch, hb] at h2
        subst h2
        exact ⟨hc, by simp; omega⟩
      | some r =>
        intro ch2 h2
        simp [Get, hch, hb] at h2
        subst h2
        exact ⟨hc, by simp; omega⟩
    | nil =>
      cases hf : p.instanceConn with
      | none => simpa [Get, hch, hb, hf] using h
      | some f =>
        cases he : (f w.calls).2 with
        | some e => simpa [Get, hch, hb, hf, he] using h
        | none =>
          simp only [Get, hch, hb, hf, he]
          exact put_bounded env h _ _

theorem close_connsChan (env : Env) (p : ChannelPool) (w : World) :
    (Close env p w).2.1 = { connsChan := none, instanceConn := none } := by
  unfold Close
  cases p.connsChan <;> rfl

theorem wrapperClose_bounded (env : Env) {m : Nat} {p : ChannelPool} (h : Bounded m p)
    (cw : ConnWrapper) (w : World) : Bounded m (cw.Close env p w).2.1 := by
  unfold ConnWrapper.Close
  cases hu : cw.unusable with
  | true => cases hc : cw.conn <;> simpa using h
  | false => simpa using put_bounded env h w cw.conn

theorem step_bounded (env : Env) {m : Nat} {s : Sys} (h : Bounded m s.pool) (op : Op) :
    Bounded m (step env s op).pool := by
  cases op with
  | get =>
    have hg := get_bounded env h s.world
    simp only [step]
    split <;> exact hg
  | wrapperClose i =>
    simp only [step]
    split
    · exact h
    · exact wrapperClose_bounded env h _ _
  | markUnusable i =>
    simp only [step]
    split <;> exact h
  | poolClose =>
    simp only [step, close_connsChan]
    intro ch hch
    simp at hch

theorem run_bounded (env : Env) {m : Nat} (ops : List Op) :
    ∀ {s : Sys}, Bounded m s.pool → Bounded m (run env s ops).pool := by
  induction ops with
  | nil => intro s h; exact h
  | cons op rest ih =>
    intro s h
    exact ih (step_bounded env h op)

theorem fillLoop_bounded (env : Env) (f : Option InstanceConn) {m : Nat} (n : Nat) :
    ∀ (c : ChannelPool) (w : World) (p : ChannelPool) (e : Option Error),
      Bounded m c → (fillLoop env f n c w).1 = Outcome.ok (some p, e) → Bounded m p := by
  induction n with
  | zero =>
    intro c w p e hc h
    simp [fillLoop] at h
    rw [← h.1]
    exact hc
  | succ n ih =>
    intro c w p e hc h
    cases hf : f with
    | none => simp [fillLoop, hf] at h
    | some g =>
      cases he : (g w.calls).2 with
      | some err =>
        simp only [fillLoop, hf, he] at h
        split at h <;> simp at h
      | none =>
        cases hch : c.connsChan with
        | none => simp [fillLoop, hf, he, hch] at h
        | some ch =>
          by_cases hlt : ch.buf.length < ch.cap
          · simp only [fillLoop, hf, he, hch, hlt, if_true] at h
            refine ih _ _ p e ?_ (by simpa [hf] using h)
            intro ch2 h2
            simp at h2
            subst h2
            have hcap := (hc ch hch).1
            simp only [List.length_append, List.length_singleton]
            exact ⟨hcap, by omega⟩
          · simp [fillLoop, hf, he, hch, hlt] at h

theorem newChannelPool_bounded (env : Env) (initial max : Int) (fo : Option InstanceConn)
    (w : World) (p : ChannelPool) (e : Option Error)
    (h : (NewChannelPool env initial max fo w).1 = Outcome.ok (some p, e)) :
    Bounded max.toNat p ∧ 0 < max := by
  unfold NewChannelPool at h
  by_cases hbad : initial < 0 ∨ max ≤ 0 ∨ initial > max
  · simp [hbad] at h
  · rw [if_neg hbad] at h
    refine ⟨fillLoop_bounded env fo _ _ _ p e ?_ h, by omega⟩
    intro ch hch
    simp at hch
    subst hch
    simp

/-- C5: for every pool returned by `NewChannelPool initial max factory` and
every finite run of `Get`, wrapper `Close`, `MarkUnusable` and pool `Close`
(in any order, wrappers closed any number of times), `0 ≤ Len ≤ max` holds at
the end of the run, hence after each of its steps. -/
theorem capacity_invariant (env : Env) (initial max : Int) (fo : Option InstanceConn)
    (w : World) (p : ChannelPool) (e : Option Error)
    (hnew : (NewChannelPool env initial max fo w).1 = Outcome.ok (some p, e))
    (ops : List Op) :
    (0 : Int) ≤ Len (run env (Sys.init p (NewChannelPool env initial max fo w).2) ops).pool ∧
      (Len (run env (Sys.init p (NewChannelPool env initial max fo w).2) ops).pool : Int) ≤ max := by
  obtain ⟨hb, hpos⟩ := newChannelPool_bounded env initial max fo w p e hnew
  have hle := (run_bounded env ops (s := Sys.init p (NewChannelPool env initial max fo w).2) hb).len_le
  constructor
  · exact Int.ofNat_nonneg _
  · omega

/-- Witness of C5: a pool of capacity 2 prefilled with one resource, then a run
that acquires twice, closes the second wrapper twice and shuts the pool down. -/
theorem capacity_invariant_witness :
    (0 : Int) ≤ Len (run envOk (Sys.init poolOneOfTwo
        (NewChannelPool envOk 1 2 (some freshFactory) world0).2)
        [Op.get, Op.get, Op.wrapperClose 0, Op.wrapperClose 1, Op.wrapperClose 1,
          Op.poolClose]).pool ∧
      (Len (run envOk (Sys.init poolOneOfTwo
        (NewChannelPool envOk 1 2 (some freshFactory) world0).2)
        [Op.get, Op.get, Op.wrapperClose 0, Op.wrapperClose 1, Op.wrapperClose 1,
          Op.poolClose]).pool : Int) ≤ 2 :=
  capacity_invariant envOk 1 2 (some freshFactory) world0 poolOneOfTwo none rfl
    [Op.get, Op.get, Op.wrapperClose 0, Op.wrapperClose 1, Op.wrapperClose 1, Op.poolClose]

/-! ## Construction -/

theorem produced_succ (f : InstanceConn) (k n : Nat) :
    produced f k (n + 1) = (f k).1 :: produced f (k + 1) n := by
  simp only [produced, List.range_succ_eq_map, List.map_cons, List.map_map, Nat.add_zero]
  congr 1
  apply List.map_congr_left
  intro i _
  simp only [Function.comp, Nat.succ_eq_add_one]
  congr 2
  omega

theorem fillLoop_ok (env : Env) (f : InstanceConn) (n : Nat) :
    ∀ (c : ChannelPool) (ch : Chan) (w : World),
      c.connsChan = some ch → ch.buf.length + n ≤ ch.cap →
      (∀ i, i < n → (f (w.calls + i)).2 = none) →
      fillLoop env (some f) n c w =
        (Outcome.ok (some (ChannelPool.mk
            (some (Chan.mk (ch.buf ++ produced f w.calls n) ch.cap)) c.instanceConn), none),
          World.mk (w.calls + n) w.closed) := by
  induction n with
  | zero =>
    intro c ch w hch _ _
    simp [fillLoop, produced, ← hch]
  | succ n ih =>
    intro c ch w hch hroom hok
    have h0 : (f w.calls).2 = none := by simpa using hok 0 (by omega)
    have hlt : ch.buf.length < ch.cap := by omega
    simp only [fillLoop, h0, hch, hlt, if_true]
    rw [ih _ { ch with buf := ch.buf ++ [(f w.calls).1] } _ rfl
      (by simp only [List.length_append, List.length_singleton]; omega)
      (by
        intro i hi
        have := hok (i + 1) (by omega)
        simpa [Nat.add_assoc, Nat.add_comm 1 i] using this)]
    simp [produced_succ, Nat.add_assoc, Nat.add_comm 1 n]

theorem newChannelPool_valid (env : Env) (initial max : Int) (f : InstanceConn) (w : World)
    (h0 : 0 ≤ initial) (hle : initial ≤ max) (hpos : 0 < max)
    (hok : ∀ i, i < initial.toNat → (f (w.calls + i)).2 = none) :
    NewChannelPool env initial max (some f) w =
      (Outcome.ok (some (ChannelPool.mk
          (some (Chan.mk (produced f w.calls initial.toNat) max.toNat)) (some f)), none),
        World.mk (w.calls + initial.toNat) w.closed) := by
  have hvalid : ¬ (initial < 0 ∨ max ≤ 0 ∨ initial > max) := by omega
  unfold NewChannelPool
  rw [if_neg hvalid, fillLoop_ok env f initial.toNat _ (Chan.mk [] max.toNat) w rfl
    (by simp only [List.length_nil]; omega) hok]
  simp

/-- C6: for `0 ≤ initial ≤ max`, `max > 0` and a factory whose first `initial`
calls succeed, `NewChannelPool` returns a pool and a nil error, invokes the
factory exactly `initial` times (and releases nothing), and the pool, whose
buffer holds the connections produced in order, reports `Len` equal to
`initial`. -/
theorem new_pool_prefilled (env : Env) (initial max : Int) (f : InstanceConn) (w : World)
    (h0 : 0 ≤ initial) (hle : initial ≤ max) (hpos : 0 < max)
    (hok : ∀ i, i < initial.toNat → (f (w.calls + i)).2 = none) :
    ∃ p : ChannelPool,
      NewChannelPool env initial max (some f) w =
        (Outcome.ok (some p, none), { w with calls := w.calls + initial.toNat }) ∧
      (Len p : Int) = initial ∧
      p.connsChan = some (Chan.mk (produced f w.calls initial.toNat) max.toNat) ∧
      p.instanceConn = some f := by
  refine ⟨_, newChannelPool_valid env initial max f w h0 hle hpos hok, ?_, rfl, rfl⟩
  simp [Len, produced]
  omega

/-- Witness of C6: `NewChannelPool 2 3` with the factory of fresh resources. -/
theorem new_pool_prefilled_witness :
    ∃ p : ChannelPool,
      NewChannelPool envOk 2 3 (some freshFactory) world0 =
        (Outcome.ok (some p, none), { world0 with calls := world0.calls + (2 : Int).toNat }) ∧
      (Len p : Int) = 2 ∧
      p.connsChan = some (Chan.mk (produced freshFactory world0.calls (2 : Int).toNat)
        (3 : Int).toNat) ∧
      p.instanceConn = some freshFactory :=
  new_pool_prefilled envOk 2 3 freshFactory world0 (by decide) (by decide) (by decide)
    (fun _ _ => rfl)

/-- C7: if `initial < 0` or `max ≤ 0` or `initial > max` then `NewChannelPool`
returns a nil pool and a non-nil error and leaves the world untouched (no
factory call); and with a factory that never fails, `NewChannelPool` returns
an error only for such parameters. -/
theorem new_pool_invalid_params (env : Env) (initial max : Int) (w : World) :
    (initial < 0 ∨ max ≤ 0 ∨ initial > max →
        ∀ fo : Option InstanceConn,
          NewChannelPool env initial max fo w =
            (Outcome.ok (none, some Error.invalidParams), w)) ∧
      (∀ f : InstanceConn, (∀ k, (f k).2 = none) →
        ∀ (q : Option ChannelPool) (e : Error),
          (NewChannelPool env initial max (some f) w).1 = Outcome.ok (q, some e) →
          initial < 0 ∨ max ≤ 0 ∨ initial > max) := by
  constructor
  · intro hbad fo
    simp [NewChannelPool, hbad]
  · intro f hf q e hres
    by_contra hvalid
    have hp := newChannelPool_valid env initial max f w (by omega) (by omega)
      (by omega) (fun i _ => hf _)
    rw [hp] at hres
    simp at hres

/-- Witness of C7: `NewChannelPool (-1) 5` fails without a factory call, and
`NewChannelPool 6 5`, which returns an error with a factory that never fails,
has invalid parameters. -/
theorem new_pool_invalid_params_witness :
    NewChannelPool envOk (-1) 5 (some freshFactory) world0 =
        (Outcome.ok (none, some Error.invalidParams), world0) ∧
      ((6 : Int) < 0 ∨ (5 : Int) ≤ 0 ∨ (6 : Int) > 5) :=
  ⟨(new_pool_invalid_params envOk (-1) 5 world0).1 (by decide) (some freshFactory),
    (new_pool_invalid_params envOk 6 5 world0).2 freshFactory (fun _ => rfl) none
      Error.invalidParams rfl⟩

/-! ## Shutdown -/

theorem put_closed (env : Env) {p : ChannelPool} (h : p.connsChan = none) (w : World)
    (conn : Conn) : (put env p w conn).2.1.connsChan = none := by
  cases conn <;> simp [put, h]

theorem wrapperClose_closed (env : Env) {p : ChannelPool} (h : p.connsChan = none)
    (cw : ConnWrapper) (w : World) : (cw.Close env p w).2.1.connsChan = none := by
  unfold ConnWrapper.Close
  cases hu : cw.unusable with
  | true => cases hc : cw.conn <;> simpa using h
  | false => simpa using put_closed env h w cw.conn

theorem step_closed (env : Env) {s : Sys} (h : s.pool.connsChan = none) (op : Op) :
    (step env s op).pool.connsChan = none := by
  cases op with
  | get => simp [step, Get, h]
  | wrapperClose i =>
    simp only [step]
    split
    · exact h
    · exact wrapperClose_closed env h _ _
  | markUnusable i =>
    simp only [step]
    split <;> exact h
  | poolClose => simp [step, close_connsChan]

theorem run_closed (env : Env) (ops : List Op) :
    ∀ {s : Sys}, s.pool.connsChan = none → (run env s ops).pool.connsChan = none := by
  induction ops with
  | nil => intro s h; exact h
  | cons op rest ih =>
    intro s h
    exact ih (step_closed env h op)

theorem drain_all (env : Env) (rs : List Nat) :
    ∀ w : World, drain env (rs.map some) w =
      (Outcome.ok (), World.mk w.calls (w.closed ++ rs)) := by
  induction rs with
  | nil => intro w; simp [drain]
  | cons r rest ih =>
    intro w
    simp [drain, ih, resClose]

/-- C8: once pool `Close` has been called, after any further run of `Get`,
wrapper `Close`, `MarkUnusable` and pool `Close`, a `Get` returns a nil
connection with the error of a closed pool, changes neither the pool nor the
world (no factory call), and `Len` is 0. -/
theorem closed_is_absorbing (env : Env) (s : Sys) (ops : List Op) :
    Get env (run env (step env s Op.poolClose) ops).pool
        (run env (step env s Op.poolClose) ops).world =
        (Outcome.ok (none, some Error.poolClosed),
          (run env (step env s Op.poolClose) ops).pool,
          (run env (step env s Op.poolClose) ops).world) ∧
      Len (run env (step env s Op.poolClose) ops).pool = 0 := by
  have h0 : (step env s Op.poolClose).pool.connsChan = none := by
    simp [step, close_connsChan]
  have h := run_closed env ops h0
  simp [Get, Len, h]

/-- C9, as stated, fails: a pool is built with one resource, the resource is
acquired and the pool shut down; `Close` on the wrapper then invokes the
resource's own `Close`, which reports error 1, and returns that error to the
caller instead of nil. -/
theorem close_after_shutdown_counterexample :
    (NewChannelPool envFail 1 1 (some freshFactory) world0).1
        = Outcome.ok (some (ChannelPool.mk (some (Chan.mk [some 0] 1)) (some freshFactory)),
          none) ∧
      (run envFail (Sys.init (ChannelPool.mk (some (Chan.mk [some 0] 1)) (some freshFactory))
        (World.mk 1 [])) [Op.get, Op.poolClose]).wrappers = [wrapConn (some 0)] ∧
      (run envFail (Sys.init (ChannelPool.mk (some (Chan.mk [some 0] 1)) (some freshFactory))
        (World.mk 1 [])) [Op.get, Op.poolClose]).pool.connsChan = none ∧
      ((wrapConn (some 0)).Close envFail
        (run envFail (Sys.init (ChannelPool.mk (some (Chan.mk [some 0] 1)) (some freshFactory))
          (World.mk 1 [])) [Op.get, Op.poolClose]).pool
        (run envFail (Sys.init (ChannelPool.mk (some (Chan.mk [some 0] 1)) (some freshFactory))
          (World.mk 1 [])) [Op.get, Op.poolClose]).world).1 = some (Error.ext 1) := by
  refine ⟨rfl, rfl, rfl, rfl⟩

/-- C9, amended: on a pool that has been shut down, `Close` on a wrapper that
holds a non-nil resource, marked unusable or not, invokes the resource's own
`Close` exactly once, returns that call's answer to the caller (nil exactly
when the resource closes without error), and leaves the pool closed with
`Len` 0. -/
theorem close_after_shutdown (env : Env) (p : ChannelPool) (w : World)
    (cw : ConnWrapper) (r : Nat)
    (hclosed : p.connsChan = none) (hconn : cw.conn = some r) :
    (cw.Close env p w).1 = env.connClose w.closed r ∧
      (cw.Close env p w).2.2 = World.mk w.calls (w.closed ++ [r]) ∧
      (cw.Close env p w).2.1 = p ∧
      Len (cw.Close env p w).2.1 = 0 ∧
      ((cw.Close env p w).1 = none ↔ env.connClose w.closed r = none) := by
  cases hu : cw.unusable <;>
    simp [ConnWrapper.Close, hu, hconn, put, hclosed, resClose, Len]

/-- Witness of the amended C9: a wrapper of resource 0 closed on a closed pool
whose resources report error 1 on `Close`. -/
theorem close_after_shutdown_witness :
    ((wrapConn (some 0)).Close envFail (ChannelPool.mk none none) world0).1
        = envFail.connClose world0.closed 0 ∧
      ((wrapConn (some 0)).Close envFail (ChannelPool.mk none none) world0).2.2
        = World.mk world0.calls (world0.closed ++ [0]) ∧
      ((wrapConn (some 0)).Close envFail (ChannelPool.mk none none) world0).2.1
        = ChannelPool.mk none none ∧
      Len ((wrapConn (some 0)).Close envFail (ChannelPool.mk none none) world0).2.1 = 0 ∧
      (((wrapConn (some 0)).Close envFail (ChannelPool.mk none none) world0).1 = none ↔
        envFail.connClose world0.closed 0 = none) :=
  close_after_shutdown envFail (ChannelPool.mk none none) world0 (wrapConn (some 0)) 0 rfl rfl

/-- C10: on an open pool whose buffer holds the non-nil resources r1..rn, pool
`Close` returns after invoking the resource-level `Close` once for each
buffered entry, in buffer order, and on nothing else (no factory call either);
afterwards the channel and the factory reference are nil and `Len` is 0. -/
theorem pool_close_drains (env : Env) (p : ChannelPool) (w : World) (ch : Chan)
    (rs : List Nat) (hopen : p.connsChan = some ch) (hbuf : ch.buf = rs.map some) :
    (Close env p w).1 = Outcome.ok () ∧
      (Close env p w).2.2 = World.mk w.calls (w.closed ++ rs) ∧
      ((Close env p w).2.2.closed.length = w.closed.length + Len p) ∧
      GetConnsChan (Close env p w).2.1 = none ∧
      GetInstanceConnFunc (Close env p w).2.1 = none ∧
      Len (Close env p w).2.1 = 0 := by
  have hd := drain_all env rs w
  have hlen : Len p = rs.length := by simp [Len, hopen, hbuf]
  refine ⟨?_, ?_, ?_, ?_, ?_, ?_⟩
  · simp [Close, hopen, hbuf, hd]
  · simp [Close, hopen, hbuf, hd]
  · simp [Close, hopen, hbuf, hd, hlen]
  · simp [GetConnsChan, close_connsChan]
  · simp [GetInstanceConnFunc, close_connsChan]
  · simp [Len, close_connsChan]

/-- Witness of C10 on the pool that holds resources 7 and 8. -/
theorem pool_close_drains_witness :
    (Close envFail poolTwo world0).1 = Outcome.ok () ∧
      (Close envFail poolTwo world0).2.2 = World.mk world0.calls (world0.closed ++ [7, 8]) ∧
      ((Close envFail poolTwo world0).2.2.closed.length = world0.closed.length + Len poolTwo) ∧
      GetConnsChan (Close envFail poolTwo world0).2.1 = none ∧
      GetInstanceConnFunc (Close envFail poolTwo world0).2.1 = none ∧
      Len (Close envFail poolTwo world0).2.1 = 0 :=
  pool_close_drains envFail poolTwo world0 (Chan.mk [some 7, some 8] 3) [7, 8] rfl rfl

/-! ## Shutdown twice, factory failures -/

/-- C11: pool `Close` is idempotent. Whatever the pool and the world, and
however the first `Close` ended, a second `Close` returns at once and leaves
the pool state and the world (release log, factory calls) exactly as the first
call left them: it invokes no resource-level `Close`. -/
theorem pool_close_idempotent (env : Env) (p : ChannelPool) (w : World) :
    Close env (Close env p w).2.1 (Close env p w).2.2 =
        (Outcome.ok (), (Close env p w).2.1, (Close env p w).2.2) ∧
      (Close env (Close env p w).2.1 (Close env p w).2.2).2.2.closed
        = (Close env p w).2.2.closed ∧
      GetConnsChan (Close env (Close env p w).2.1 (Close env p w).2.2).2.1 = none ∧
      GetInstanceConnFunc (Close env (Close env p w).2.1 (Close env p w).2.2).2.1 = none := by
  have h1 := close_connsChan env p w
  have h2 : Close env (Close env p w).2.1 (Close env p w).2.2 =
      (Outcome.ok (), (Close env p w).2.1, (Close env p w).2.2) := by
    rw [h1]
    rfl
  refine ⟨h2, ?_, ?_, ?_⟩
  · rw [h2]
  · rw [h2, h1]; rfl
  · rw [h2, h1]; rfl

/-- C12: on an open pool with an empty buffer, when the factory call fails
with error `e`, `Get` returns a nil connection together with exactly `e`; the
pool is unchanged (still open, `Len` 0), the factory was invoked once and no
resource was released. -/
theorem get_factory_error (env : Env) (p : ChannelPool) (w : World) (ch : Chan)
    (f : InstanceConn) (e : Error)
    (hopen : p.connsChan = some ch) (hlen : Len p = 0)
    (hf : p.instanceConn = some f) (hfail : (f w.calls).2 = some e) :
    (Get env p w).1 = Outcome.ok (none, some e) ∧
      (Get env p w).2.1 = p ∧
      Len (Get env p w).2.1 = 0 ∧
      (Get env p w).2.1.connsChan = some ch ∧
      (Get env p w).2.2.closed = w.closed ∧
      (Get env p w).2.2.calls = w.calls + 1 := by
  have hb : ch.buf = [] := by
    simp only [Len, hopen] at hlen
    exact List.length_eq_zero.mp hlen
  have hg : Get env p w = (Outcome.ok (none, some e), p, World.mk (w.calls + 1) w.closed) := by
    simp [Get, hopen, hb, hf, hfail]
  rw [hg]
  exact ⟨rfl, rfl, hlen, hopen, rfl, rfl⟩

/-- Witness of C12: the empty pool of capacity 1 with a factory that always
fails with error 9. -/
theorem get_factory_error_witness :
    (Get envOk (poolEmpty failFactory) world0).1 = Outcome.ok (none, some (Error.ext 9)) ∧
      (Get envOk (poolEmpty failFactory) world0).2.1 = poolEmpty failFactory ∧
      Len (Get envOk (poolEmpty failFactory) world0).2.1 = 0 ∧
      (Get envOk (poolEmpty failFactory) world0).2.1.connsChan = some (Chan.mk [] 1) ∧
      (Get envOk (poolEmpty failFactory) world0).2.2.closed = world0.closed ∧
      (Get envOk (poolEmpty failFactory) world0).2.2.calls = world0.calls + 1 :=
  get_factory_error envOk (poolEmpty failFactory) world0 (Chan.mk [] 1) failFactory
    (Error.ext 9) rfl rfl rfl rfl

/-- C14: on an open pool with an empty buffer, when the factory call succeeds
with a non-nil resource `r`, `Get` puts `r` into the pool and also returns it
wrapped: afterwards the buffer holds exactly `r` (`Len` 1) and the returned
wrapper holds the same `r`; the factory was invoked once, nothing released. -/
theorem overflow_get_shares_resource (env : Env) (p : ChannelPool) (w : World) (ch : Chan)
    (f : InstanceConn) (r : Nat)
    (hopen : p.connsChan = some ch) (hcap : 0 < ch.cap) (hlen : Len p = 0)
    (hf : p.instanceConn = some f) (hok : f w.calls = (some r, none)) :
    ∃ cw : ConnWrapper,
      (Get env p w).1 = Outcome.ok (some cw, none) ∧
      cw.conn = some r ∧ cw.unusable = false ∧
      (Get env p w).2.1.connsChan = some (Chan.mk [some r] ch.cap) ∧
      Len (Get env p w).2.1 = 1 ∧
      (Get env p w).2.2 = World.mk (w.calls + 1) w.closed := by
  have hb : ch.buf = [] := by
    simp only [Len, hopen] at hlen
    exact List.length_eq_zero.mp hlen
  refine ⟨wrapConn (some r), ?_, rfl, rfl, ?_, ?_, ?_⟩ <;>
    simp [Get, hopen, hb, hf, hok, put, hcap, Len]

/-- Witness of C14: the empty pool of capacity 1 and the factory of fresh
resources, whose first resource is 0. -/
theorem overflow_get_shares_resource_witness :
    ∃ cw : ConnWrapper,
      (Get envOk (poolEmpty freshFactory) world0).1 = Outcome.ok (some cw, none) ∧
      cw.conn = some 0 ∧ cw.unusable = false ∧
      (Get envOk (poolEmpty freshFactory) world0).2.1.connsChan
        = some (Chan.mk [some 0] (Chan.mk [] 1).cap) ∧
      Len (Get envOk (poolEmpty freshFactory) world0).2.1 = 1 ∧
      (Get envOk (poolEmpty freshFactory) world0).2.2
        = World.mk (world0.calls + 1) world0.closed :=
  overflow_get_shares_resource envOk (poolEmpty freshFactory) world0 (Chan.mk [] 1)
    freshFactory 0 rfl (by decide) rfl rfl rfl

/-! ## Construction rollback -/

theorem fillLoop_advance (env : Env) (f : InstanceConn) (j : Nat) :
    ∀ (m : Nat) (c : ChannelPool) (ch : Chan) (w : World),
      c.connsChan = some ch → ch.buf.length + j ≤ ch.cap →
      (∀ i, i < j → (f (w.calls + i)).2 = none) →
      fillLoop env (some f) (j + m) c w =
        fillLoop env (some f) m
          (ChannelPool.mk (some (Chan.mk (ch.buf ++ produced f w.calls j) ch.cap)) c.instanceConn)
          (World.mk (w.calls + j) w.closed) := by
  induction j with
  | zero =>
    intro m c ch w hch _ _
    simp [produced, ← hch]
  | succ j ih =>
    intro m c ch w hch hroom hok
    have h0 : (f w.calls).2 = none := by simpa using hok 0 (by omega)
    have hlt : ch.buf.length < ch.cap := by omega
    have hjm : j + 1 + m = (j + m) + 1 := by omega
    rw [hjm]
    simp only [fillLoop, h0, hch, hlt, if_true]
    rw [ih m _ (Chan.mk (ch.buf ++ [(f w.calls).1]) ch.cap) _ rfl
      (by simp only [List.length_append, List.length_singleton]; omega)
      (by
        intro i hi
        have := hok (i + 1) (by omega)
        simpa [Nat.add_assoc, Nat.add_comm 1 i] using this)]
    simp [produced_succ, Nat.add_assoc, Nat.add_comm 1 j]

theorem produced_of_success (f : InstanceConn) (k j : Nat) (res : Nat → Nat)
    (h : ∀ i, i < j → f (k + i) = (some (res i), none)) :
    produced f k j = ((List.range j).map res).map some := by
  simp only [produced, List.map_map]
  apply List.map_congr_left
  intro i hi
  simp [h i (List.mem_range.mp hi)]

/-- C13: construction rollback. For `initial ≤ max`, `max > 0` and
`1 ≤ k ≤ initial` (so `0 ≤ initial`), when the first k - 1 factory calls
succeed with the non-nil resources `res 0 .. res (k - 2)` and the k-th call
fails with `e`, `NewChannelPool` returns a nil pool and a non-nil error built
from `e`, has invoked the factory exactly k times, and has invoked the
resource-level `Close` exactly once on each of the k - 1 resources made, in
order, and on nothing else. -/
theorem new_pool_rollback (env : Env) (initial max : Int) (f : InstanceConn) (w : World)
    (k : Nat) (res : Nat → Nat) (e : Error)
    (hle : initial ≤ max) (hpos : 0 < max) (hk1 : 1 ≤ k) (hk : (k : Int) ≤ initial)
    (hsucc : ∀ i, i < k - 1 → f (w.calls + i) = (some (res i), none))
    (hfail : (f (w.calls + (k - 1))).2 = some e) :
    NewChannelPool env initial max (some f) w =
      (Outcome.ok (none, some (Error.instanceFailed e)),
        World.mk (w.calls + k) (w.closed ++ (List.range (k - 1)).map res)) := by
  have hvalid : ¬ (initial < 0 ∨ max ≤ 0 ∨ initial > max) := by omega
  obtain ⟨m, hm⟩ : ∃ m, initial.toNat = (k - 1) + (m + 1) := ⟨initial.toNat - k, by omega⟩
  unfold NewChannelPool
  rw [if_neg hvalid, hm, fillLoop_advance env f (k - 1) (m + 1) _ (Chan.mk [] max.toNat) w rfl
    (by simp only [List.length_nil]; omega)
    (by intro i hi; rw [hsucc i hi])]
  rw [produced_of_success f w.calls (k - 1) res hsucc]
  have hk' : w.calls + (k - 1) + 1 = w.calls + k := by omega
  have hd := drain_all env ((List.range (k - 1)).map res) (World.mk (w.calls + k) w.closed)
  simp only [List.map_map] at hd
  simp [fillLoop, hfail, Close, hk', hd]

/-- Witness of C13: `NewChannelPool 3 4` with a factory whose third call fails
with error 9 after making the resources 0 and 1. -/
theorem new_pool_rollback_witness :
    NewChannelPool envOk 3 4 (some failThird) world0 =
      (Outcome.ok (none, some (Error.instanceFailed (Error.ext 9))),
        World.mk (world0.calls + 3) (world0.closed ++ (List.range (3 - 1)).map id)) :=
  new_pool_rollback envOk 3 4 failThird world0 3 id (Error.ext 9) (by decide) (by decide)
    (by decide) (by decide)
    (by
      intro i hi
      have hi2 : i = 0 ∨ i = 1 := by omega
      rcases hi2 with h | h <;> subst h <;> rfl)
    rfl

/-! ## Closing a wrapper twice, and the acquire/close round trip -/

theorem wrapperClose_occurrences (env : Env) (p : ChannelPool) (w : World)
    (cw : ConnWrapper) (r : Nat) (hconn : cw.conn = some r) :
    occurrences r (cw.Close env p w).2.1 (cw.Close env p w).2.2 = occurrences r p w + 1 := by
  cases hu : cw.unusable with
  | true =>
    simp [ConnWrapper.Close, hu, hconn, resClose, occurrences, List.count_append]
    omega
  | false =>
    cases hch : p.connsChan with
    | none =>
      simp [ConnWrapper.Close, hu, hconn, put, hch, resClose, occurrences, bufOf,
        List.count_append]
    | some ch =>
      by_cases hlt : ch.buf.length < ch.cap
      · simp [ConnWrapper.Close, hu, hconn, put, hch, hlt, occurrences, bufOf,
          List.count_append]
        omega
      · simp [ConnWrapper.Close, hu, hconn, put, hch, hlt, resClose, occurrences, bufOf,
          List.count_append]
        omega

/-- C16, as stated, fails: `NewChannelPool 1 3` prefills resource 0 and `Get`
hands it out in a wrapper. Closing that wrapper twice inserts resource 0 into
the buffer twice; and when the wrapper is first marked unusable, closing it
twice invokes the resource's own `Close` twice. -/
theorem wrapper_close_twice_counterexample :
    (NewChannelPool envOk 1 3 (some freshFactory) world0).1
        = Outcome.ok (some (ChannelPool.mk (some (Chan.mk [some 0] 3)) (some freshFactory)),
          none) ∧
      (run envOk (Sys.init (ChannelPool.mk (some (Chan.mk [some 0] 3)) (some freshFactory))
        (World.mk 1 [])) [Op.get]).wrappers = [wrapConn (some 0)] ∧
      (run envOk (Sys.init (ChannelPool.mk (some (Chan.mk [some 0] 3)) (some freshFactory))
        (World.mk 1 [])) [Op.get, Op.wrapperClose 0, Op.wrapperClose 0]).pool.connsChan
        = some (Chan.mk [some 0, some 0] 3) ∧
      (run envOk (Sys.init (ChannelPool.mk (some (Chan.mk [some 0] 3)) (some freshFactory))
        (World.mk 1 [])) [Op.get, Op.markUnusable 0, Op.wrapperClose 0,
          Op.wrapperClose 0]).world.closed = [0, 0] := by
  refine ⟨rfl, rfl, rfl, rfl⟩

/-- C16, amended: a wrapper keeps no record of having been closed, so each
`Close` on a wrapper that holds a non-nil resource `r` acts anew: it either
inserts `r` into the buffer or invokes the own `Close` of `r` once. Two calls
therefore add exactly two occurrences of `r` to the buffer and the release log
together; on a wrapper marked unusable the own `Close` of `r` is invoked twice
and the pool is untouched, and on a usable wrapper of an open pool with two
free slots `r` is inserted twice and nothing is released. -/
theorem wrapper_close_twice (env : Env) (p : ChannelPool) (w : World)
    (cw : ConnWrapper) (r : Nat) (hconn : cw.conn = some r) :
    occurrences r (cw.Close env (cw.Close env p w).2.1 (cw.Close env p w).2.2).2.1
        (cw.Close env (cw.Close env p w).2.1 (cw.Close env p w).2.2).2.2
        = occurrences r p w + 2 ∧
      (cw.unusable = true →
        (cw.Close env (cw.Close env p w).2.1 (cw.Close env p w).2.2).2.2.closed
          = w.closed ++ [r, r] ∧
        (cw.Close env (cw.Close env p w).2.1 (cw.Close env p w).2.2).2.1 = p) ∧
      (cw.unusable = false → ∀ ch, p.connsChan = some ch → ch.buf.length + 2 ≤ ch.cap →
        (cw.Close env (cw.Close env p w).2.1 (cw.Close env p w).2.2).2.1.connsChan
          = some (Chan.mk (ch.buf ++ [some r, some r]) ch.cap) ∧
        (cw.Close env (cw.Close env p w).2.1 (cw.Close env p w).2.2).2.2 = w) := by
  refine ⟨?_, ?_, ?_⟩
  · rw [wrapperClose_occurrences env _ _ cw r hconn, wrapperClose_occurrences env p w cw r hconn]
  · intro hu
    simp [ConnWrapper.Close, hu, hconn, resClose]
  · intro hu ch hch hroom
    have h1 : ch.buf.length < ch.cap := by omega
    have h2 : ch.buf.length + 1 < ch.cap := by omega
    simp [ConnWrapper.Close, hu, hconn, put, hch, h1, h2]

/-- Witness of the amended C16: a wrapper of resource 5 closed twice on the
pool of capacity 3 that holds the resources 7 and 8. -/
theorem wrapper_close_twice_witness :
    occurrences 5 ((wrapConn (some 5)).Close envOk
          ((wrapConn (some 5)).Close envOk poolTwo world0).2.1
          ((wrapConn (some 5)).Close envOk poolTwo world0).2.2).2.1
        ((wrapConn (some 5)).Close envOk
          ((wrapConn (some 5)).Close envOk poolTwo world0).2.1
          ((wrapConn (some 5)).Close envOk poolTwo world0).2.2).2.2
      = occurrences 5 poolTwo world0 + 2 :=
  (wrapper_close_twice envOk poolTwo world0 (wrapConn (some 5)) 5 rfl).1

/-- C18: on an open pool within its capacity whose buffer holds n > 0 non-nil
resources, `Get` followed by `Close` on the wrapper it returned (not marked
unusable) leaves `Len` at n again, with the world untouched: no factory call
and no release. -/
theorem get_close_round_trip (env : Env) (p : ChannelPool) (w : World) (ch : Chan)
    (ws : List ConnWrapper) (n : Nat)
    (hopen : p.connsChan = some ch) (hlen : Len p = n) (hpos : 0 < n)
    (hnn : ∀ c ∈ ch.buf, c ≠ none) (hcap : ch.buf.length ≤ ch.cap) :
    Len (run env (Sys.mk p w ws) [Op.get, Op.wrapperClose ws.length]).pool = n ∧
      (run env (Sys.mk p w ws) [Op.get, Op.wrapperClose ws.length]).world = w ∧
      (∃ c rest, ch.buf = c :: rest ∧
        (run env (Sys.mk p w ws) [Op.get, Op.wrapperClose ws.length]).pool.connsChan
          = some (Chan.mk (rest ++ [c]) ch.cap)) := by
  simp only [Len, hopen] at hlen
  cases hb : ch.buf with
  | nil => simp [hb] at hlen; omega
  | cons c rest =>
    rw [hb] at hlen hcap
    simp only [List.length_cons] at hlen hcap
    have hroom : rest.length < ch.cap := by omega
    cases c with
    | none => exact absurd rfl (hnn none (by simp [hb]))
    | some r =>
      refine ⟨?_, ?_, some r, rest, rfl, ?_⟩ <;>
        simp [run, step, Get, hopen, hb, ConnWrapper.Close, wrapConn, put, hroom, Len]
      omega

/-- Witness of C18 on the pool of capacity 3 that holds the resources 7 and 8. -/
theorem get_close_round_trip_witness :
    Len (run envOk (Sys.mk poolTwo world0 []) [Op.get, Op.wrapperClose 0]).pool = 2 ∧
      (run envOk (Sys.mk poolTwo world0 []) [Op.get, Op.wrapperClose 0]).world = world0 ∧
      (∃ c rest, [some 7, some 8] = c :: rest ∧
        (run envOk (Sys.mk poolTwo world0 []) [Op.get, Op.wrapperClose 0]).pool.connsChan
          = some (Chan.mk (rest ++ [c]) 3)) :=
  get_close_round_trip envOk poolTwo world0 (Chan.mk [some 7, some 8] 3) [] 2 rfl rfl
    (by decide) (by decide) (by decide)

/-! ## Acquire max times, then close every wrapper -/

theorem run_append (env : Env) (s : Sys) (a b : List Op) :
    run env s (a ++ b) = run env (run env s a) b := by
  simp [run, List.foldl_append]

theorem step_get_ready (env : Env) (f : InstanceConn) (m : Nat) (s : Sys) (hm : 0 < m)
    (hsucc : ∀ k, ∃ r, f k = (some r, none)) (h : Ready f m s) :
    Ready f m (step env s Op.get) ∧
      (step env s Op.get).wrappers.length = s.wrappers.length + 1 := by
  obtain ⟨ch, hch, hcap, hlen, hnn, hf, hws⟩ := h
  cases hb : ch.buf with
  | cons c rest =>
    cases c with
    | none => exact absurd rfl (hnn none (by simp [hb]))
    | some r =>
      have hstep : step env s Op.get = Sys.mk
          (ChannelPool.mk (some (Chan.mk rest ch.cap)) s.pool.instanceConn) s.world
          (s.wrappers ++ [wrapConn (some r)]) := by
        simp [step, Get, hch, hb]
      rw [hstep]
      refine ⟨⟨Chan.mk rest ch.cap, rfl, hcap, ?_, ?_, hf, ?_⟩, by simp⟩
      · rw [hb] at hlen
        simp only [List.length_cons] at hlen
        simp only
        omega
      · intro c hc
        exact hnn c (by rw [hb]; exact List.mem_cons_of_mem _ hc)
      · intro cw hcw
        rcases List.mem_append.mp hcw with h1 | h1
        · exact hws cw h1
        · rw [List.mem_singleton.mp h1]
          exact ⟨rfl, by simp [wrapConn]⟩
  | nil =>
    obtain ⟨r, hr⟩ := hsucc s.world.calls
    have hpos : 0 < ch.cap := by omega
    have hstep : step env s Op.get = Sys.mk
        (ChannelPool.mk (some (Chan.mk [some r] ch.cap)) s.pool.instanceConn)
        (World.mk (s.world.calls + 1) s.world.closed)
        (s.wrappers ++ [wrapConn (some r)]) := by
      simp [step, Get, hch, hb, hf, hr, put, hpos]
    rw [hstep]
    refine ⟨⟨Chan.mk [some r] ch.cap, rfl, hcap, ?_, ?_, hf, ?_⟩, by simp⟩
    · simp only [List.length_singleton]
      omega
    · intro c hc
      rw [List.mem_singleton.mp hc]
      simp
    · intro cw hcw
      rcases List.mem_append.mp hcw with h1 | h1
      · exact hws cw h1
      · rw [List.mem_singleton.mp h1]
        exact ⟨rfl, by simp [wrapConn]⟩

theorem run_gets_ready (env : Env) (f : InstanceConn) (m : Nat) (hm : 0 < m)
    (hsucc : ∀ k, ∃ r, f k = (some r, none)) (k : Nat) :
    ∀ s : Sys, Ready f m s →
      Ready f m (run env s (List.replicate k Op.get)) ∧
      (run env s (List.replicate k Op.get)).wrappers.length = s.wrappers.length + k := by
  induction k with
  | zero => intro s h; exact ⟨h, rfl⟩
  | succ k ih =>
    intro s h
    obtain ⟨h1, hl1⟩ := step_get_ready env f m s hm hsucc h
    obtain ⟨h2, hl2⟩ := ih (step env s Op.get) h1
    refine ⟨h2, ?_⟩
    have : run env s (List.replicate (k + 1) Op.get)
        = run env (step env s Op.get) (List.replicate k Op.get) := rfl
    rw [this, hl2, hl1]
    omega

theorem step_close_ready (env : Env) (f : InstanceConn) (m : Nat) (s : Sys) (i : Nat)
    (hi : i < s.wrappers.length) (h : Ready f m s) :
    Ready f m (step env s (Op.wrapperClose i)) ∧
      (step env s (Op.wrapperClose i)).wrappers = s.wrappers ∧
      Len (step env s (Op.wrapperClose i)).pool = min m (Len s.pool + 1) := by
  obtain ⟨ch, hch, hcap, hlen, hnn, hf, hws⟩ := h
  obtain ⟨cw, hget, hmem⟩ : ∃ cw, s.wrappers[i]? = some cw ∧ cw ∈ s.wrappers :=
    ⟨s.wrappers[i], List.getElem?_eq_getElem hi, List.getElem_mem hi⟩
  obtain ⟨hu, hc⟩ := hws cw hmem
  obtain ⟨r, hr⟩ := Option.ne_none_iff_exists'.mp hc
  by_cases hlt : ch.buf.length < ch.cap
  · have hstep : step env s (Op.wrapperClose i) = Sys.mk
        (ChannelPool.mk (some (Chan.mk (ch.buf ++ [some r]) ch.cap)) s.pool.instanceConn)
        s.world s.wrappers := by
      simp [step, hget, ConnWrapper.Close, hu, hr, put, hch, hlt]
    rw [hstep]
    refine ⟨⟨Chan.mk (ch.buf ++ [some r]) ch.cap, rfl, hcap, ?_, ?_, hf, hws⟩, rfl, ?_⟩
    · simp only [List.length_append, List.length_singleton]
      omega
    · intro c hc2
      rcases List.mem_append.mp hc2 with h1 | h1
      · exact hnn c h1
      · rw [List.mem_singleton.mp h1]
        simp
    · simp only [Len, hch, List.length_append, List.length_singleton]
      omega
  · have hstep : step env s (Op.wrapperClose i) = Sys.mk s.pool
        (World.mk s.world.calls (s.world.closed ++ [r])) s.wrappers := by
      simp [step, hget, ConnWrapper.Close, hu, hr, put, hch, hlt, resClose]
    rw [hstep]
    refine ⟨⟨ch, hch, hcap, hlen, hnn, hf, hws⟩, rfl, ?_⟩
    simp only [Len, hch]
    omega

theorem run_closes_ready (env : Env) (f : InstanceConn) (m : Nat) (idxs : List Nat) :
    ∀ s : Sys, Ready f m s → (∀ i ∈ idxs, i < s.wrappers.length) →
      Len (run env s (idxs.map Op.wrapperClose)).pool = min m (Len s.pool + idxs.length) := by
  induction idxs with
  | nil =>
    intro s h _
    obtain ⟨ch, hch, hcap, hlen, _⟩ := h
    simp only [List.map_nil, run, List.foldl_nil, Len, hch, List.length_nil]
    omega
  | cons i rest ih =>
    intro s h hidx
    obtain ⟨h1, hw1, hl1⟩ := step_close_ready env f m s i (hidx i (by simp)) h
    have hrun : run env s ((i :: rest).map Op.wrapperClose)
        = run env (step env s (Op.wrapperClose i)) (rest.map Op.wrapperClose) := rfl
    rw [hrun, ih _ h1 (by
      intro j hj
      rw [hw1]
      exact hidx j (List.mem_cons_of_mem _ hj)), hl1]
    simp only [List.length_cons]
    omega

/-- C17: for `max > 0` and a factory that always succeeds with non-nil
resources, `NewChannelPool 0 max` returns a pool, and after `max` sequential
`Get` calls followed by one `Close` on each of the `max` wrappers returned
(none marked unusable), `Len` equals `max`. -/
theorem get_all_then_close_all (env : Env) (max : Int) (f : InstanceConn) (w : World)
    (hpos : 0 < max) (hsucc : ∀ k, ∃ r, f k = (some r, none)) :
    ∃ p : ChannelPool,
      NewChannelPool env 0 max (some f) w = (Outcome.ok (some p, none), w) ∧
      (Len (run env (Sys.init p w)
        (List.replicate max.toNat Op.get ++ (List.range max.toNat).map Op.wrapperClose)).pool
        : Int) = max := by
  have hnew := newChannelPool_valid env 0 max f w (by omega) (by omega) hpos
    (by intro i hi; simp at hi)
  refine ⟨_, hnew, ?_⟩
  have hm : 0 < max.toNat := by omega
  have hready : Ready f max.toNat (Sys.init (ChannelPool.mk
      (some (Chan.mk (produced f w.calls (0 : Int).toNat) max.toNat)) (some f)) w) := by
    refine ⟨_, rfl, rfl, ?_, ?_, rfl, ?_⟩
    · simp [produced]
    · simp [produced]
    · simp [Sys.init]
  obtain ⟨h1, hl1⟩ := run_gets_ready env f max.toNat hm hsucc max.toNat _ hready
  rw [run_append, run_closes_ready env f max.toNat _ _ h1 (by
    intro i hi
    rw [hl1]
    have := List.mem_range.mp hi
    omega)]
  simp only [List.length_range]
  omega

/-- Witness of C17 with capacity 3 and the factory of fresh resources. -/
theorem get_all_then_close_all_witness :
    ∃ p : ChannelPool,
      NewChannelPool envOk 0 3 (some freshFactory) world0 = (Outcome.ok (some p, none), world0) ∧
      (Len (run envOk (Sys.init p world0)
        (List.replicate (3 : Int).toNat Op.get
          ++ (List.range (3 : Int).toNat).map Op.wrapperClose)).pool : Int) = 3 :=
  get_all_then_close_all envOk 3 freshFactory world0 (by decide) (fun k => ⟨k, rfl⟩)

/-! ## The buffer never holds nil -/

theorem put_good (env : Env) {fo : Option InstanceConn} {p : ChannelPool} (h : Good fo p)
    (w : World) (conn : Conn) : Good fo (put env p w conn).2.1 := by
  cases conn with
  | none => simpa [put] using h
  | some r =>
    cases hch : p.connsChan with
    | none => simpa [put, hch] using h
    | some ch =>
      by_cases hlt : ch.buf.length < ch.cap
      · intro ch2 h2
        simp [put, hch, hlt] at h2
        subst h2
        obtain ⟨hnn, hf⟩ := h ch hch
        refine ⟨?_, by simpa [put, hch, hlt] using hf⟩
        intro c hc
        rcases List.mem_append.mp hc with h1 | h1
        · exact hnn c h1
        · rw [List.mem_singleton.mp h1]
          simp
      · simpa [put, hch, hlt] using h

theorem get_good (env : Env) {fo : Option InstanceConn} {p : ChannelPool} (h : Good fo p)
    (w : World) : Good fo (Get env p w).2.1 := by
  cases hch : p.connsChan with
  | none => simpa [Get, hch] using h
  | some ch =>
    obtain ⟨hnn, hf⟩ := h ch hch
    cases hb : ch.buf with
    | cons c rest =>
      have hrest : ∀ x ∈ rest, x ≠ none := fun x hx =>
        hnn x (by rw [hb]; exact List.mem_cons_of_mem _ hx)
      cases c with
      | none =>
        intro ch2 h2
        simp [Get, hch, hb] at h2
        subst h2
        exact ⟨hrest, by simpa [Get, hch, hb] using hf⟩
      | some r =>
        intro ch2 h2
        simp [Get, hch, hb] at h2
        subst h2
        exact ⟨hrest, by simpa [Get, hch, hb] using hf⟩
    | nil =>
      cases hfc : p.instanceConn with
      | none => simpa [Get, hch, hb, hfc] using h
      | some f =>
        cases he : (f w.calls).2 with
        | some e => simpa [Get, hch, hb, hfc, he] using h
        | none =>
          simp only [Get, hch, hb, hfc, he]
          exact put_good env h _ _

theorem wrapperClose_good (env : Env) {fo : Option InstanceConn} {p : ChannelPool}
    (h : Good fo p) (cw : ConnWrapper) (w : World) : Good fo (cw.Close env p w).2.1 := by
  unfold ConnWrapper.Close
  cases hu : cw.unusable with
  | true => cases hc : cw.conn <;> simpa using h
  | false => simpa using put_good env h w cw.conn

theorem step_good (env : Env) {fo : Option InstanceConn} {s : Sys} (h : Good fo s.pool)
    (op : Op) : Good fo (step env s op).pool := by
  cases op with
  | get =>
    have hg := get_good env h s.world
    simp only [step]
    split <;> exact hg
  | wrapperClose i =>
    simp only [step]
    split
    · exact h
    · exact wrapperClose_good env h _ _
  | markUnusable i =>
    simp only [step]
    split <;> exact h
  | poolClose =>
    simp only [step, close_connsChan]
    intro ch hch
    simp at hch

theorem run_good (env : Env) {fo : Option InstanceConn} (ops : List Op) :
    ∀ {s : Sys}, Good fo s.pool → Good fo (run env s ops).pool := by
  induction ops with
  | nil => intro s h; exact h
  | cons op rest ih =>
    intro s h
    exact ih (step_good env h op)

theorem fillLoop_good (env : Env) (fo : Option InstanceConn)
    (hfac : ∀ f, fo = some f → ∀ k, ¬ ((f k).1 = none ∧ (f k).2 = none)) (n : Nat) :
    ∀ (c : ChannelPool) (w : World) (p : ChannelPool) (e : Option Error),
      Good fo c → (fillLoop env fo n c w).1 = Outcome.ok (some p, e) → Good fo p := by
  induction n with
  | zero =>
    intro c w p e hc h
    simp [fillLoop] at h
    rw [← h.1]
    exact hc
  | succ n ih =>
    intro c w p e hc h
    cases hf : fo with
    | none => simp [fillLoop, hf] at h
    | some g =>
      rw [← hf]
      cases he : (g w.calls).2 with
      | some err =>
        simp only [fillLoop, hf, he] at h
        split at h <;> simp at h
      | none =>
        cases hch : c.connsChan with
        | none => simp [fillLoop, hf, he, hch] at h
        | some ch =>
          by_cases hlt : ch.buf.length < ch.cap
          · simp only [fillLoop, hf, he, hch, hlt, if_true] at h
            refine ih _ _ p e ?_ (by simpa [hf] using h)
            intro ch2 h2
            simp at h2
            subst h2
            obtain ⟨hnn, hfc⟩ := hc ch hch
            refine ⟨?_, hfc⟩
            intro x hx
            rcases List.mem_append.mp hx with h1 | h1
            · exact hnn x h1
            · rw [List.mem_singleton.mp h1]
              intro hnone
              exact hfac g hf w.calls ⟨hnone, he⟩
          · simp [fillLoop, hf, he, hch, hlt] at h

theorem newChannelPool_good (env : Env) (initial max : Int) (fo : Option InstanceConn)
    (hfac : ∀ f, fo = some f → ∀ k, ¬ ((f k).1 = none ∧ (f k).2 = none))
    (w : World) (p : ChannelPool) (e : Option Error)
    (h : (NewChannelPool env initial max fo w).1 = Outcome.ok (some p, e)) : Good fo p := by
  unfold NewChannelPool at h
  by_cases hbad : initial < 0 ∨ max ≤ 0 ∨ initial > max
  · simp [hbad] at h
  · rw [if_neg hbad] at h
    refine fillLoop_good env fo hfac _ _ _ p e ?_ h
    intro ch hch
    simp at hch
    subst hch
    simp

theorem drain_nil_free (env : Env) (l : List Conn) :
    ∀ w : World, (∀ c ∈ l, c ≠ none) → (drain env l w).1 = Outcome.ok () := by
  induction l with
  | nil => intro w _; rfl
  | cons c rest ih =>
    intro w h
    cases c with
    | none => exact absurd rfl (h none (by simp))
    | some r =>
      simp only [drain]
      exact ih _ (fun x hx => h x (List.mem_cons_of_mem _ hx))

/-- C20, as stated, fails in its last part: a factory that fails with the
error text of a closed pool returns it with a nil connection, so it never
returns nil together with a nil error; `NewChannelPool 0 1` builds an open
pool with it, and `Get` on that open pool hands the factory's error on
unchanged: it reports that the pool is closed. -/
theorem buffer_nil_free_counterexample :
    (∀ k, ¬ ((closedTextFactory k).1 = none ∧ (closedTextFactory k).2 = none)) ∧
      (NewChannelPool envOk 0 1 (some closedTextFactory) world0).1
        = Outcome.ok (some (poolEmpty closedTextFactory), none) ∧
      (poolEmpty closedTextFactory).connsChan = some (Chan.mk [] 1) ∧
      (Get envOk (poolEmpty closedTextFactory) world0).1
        = Outcome.ok (none, some Error.poolClosed) := by
  refine ⟨?_, rfl, rfl, rfl⟩
  intro k h
  simp [closedTextFactory] at h

/-- C20, amended: if the factory never returns a nil connection together with
a nil error, then for every pool returned by `NewChannelPool` and every run of
`Get`, `MarkUnusable`, wrapper `Close` and pool `Close`, every entry of the
buffer is non-nil at the end of the run, hence after each step; so a pool
`Close` issued then returns without the panic of a nil entry, and a `Get`
issued then on the open pool never takes its nil-entry branch: an error it
returns comes with a nil connection, from an empty buffer, and is the error
the factory returned at that call. It reports the closed-pool error only when
the factory failed with it, hence never when the factory's errors differ from
it. -/
theorem buffer_nil_free (env : Env) (initial max : Int) (fo : Option InstanceConn)
    (w : World) (p : ChannelPool) (e : Option Error)
    (hfac : ∀ f, fo = some f → ∀ k, ¬ ((f k).1 = none ∧ (f k).2 = none))
    (hnew : (NewChannelPool env initial max fo w).1 = Outcome.ok (some p, e))
    (ops : List Op) :
    (∀ c ∈ bufOf (run env (Sys.init p (NewChannelPool env initial max fo w).2) ops).pool,
        c ≠ none) ∧
      (Close env (run env (Sys.init p (NewChannelPool env initial max fo w).2) ops).pool
        (run env (Sys.init p (NewChannelPool env initial max fo w).2) ops).world).1
        = Outcome.ok () ∧
      ((run env (Sys.init p (NewChannelPool env initial max fo w).2) ops).pool.connsChan ≠ none →
        ∀ q err, (Get env (run env (Sys.init p (NewChannelPool env initial max fo w).2) ops).pool
          (run env (Sys.init p (NewChannelPool env initial max fo w).2) ops).world).1
          = Outcome.ok (q, some err) →
        q = none ∧
        Len (run env (Sys.init p (NewChannelPool env initial max fo w).2) ops).pool = 0 ∧
        ∃ g, fo = some g ∧
          (g (run env (Sys.init p (NewChannelPool env initial max fo w).2) ops).world.calls).2
            = some err) ∧
      ((∀ f, fo = some f → ∀ k, (f k).2 ≠ some Error.poolClosed) →
        (run env (Sys.init p (NewChannelPool env initial max fo w).2) ops).pool.connsChan ≠ none →
        ∀ q, (Get env (run env (Sys.init p (NewChannelPool env initial max fo w).2) ops).pool
          (run env (Sys.init p (NewChannelPool env initial max fo w).2) ops).world).1
          ≠ Outcome.ok (q, some Error.poolClosed)) := by
  have hgood : Good fo (run env (Sys.init p (NewChannelPool env initial max fo w).2) ops).pool :=
    run_good env ops (s := Sys.init p (NewChannelPool env initial max fo w).2)
      (newChannelPool_good env initial max fo hfac w p e hnew)
  generalize run env (Sys.init p (NewChannelPool env initial max fo w).2) ops = s at hgood
  have hsrc : s.pool.connsChan ≠ none → ∀ q err,
      (Get env s.pool s.world).1 = Outcome.ok (q, some err) →
      q = none ∧ Len s.pool = 0 ∧ ∃ g, fo = some g ∧ (g s.world.calls).2 = some err := by
    intro hopen q err hres
    cases hch : s.pool.connsChan with
    | none => exact absurd hch hopen
    | some ch =>
      obtain ⟨hnn, hf⟩ := hgood ch hch
      cases hb : ch.buf with
      | cons c rest =>
        cases c with
        | none => exact absurd rfl (hnn none (by simp [hb]))
        | some r => simp [Get, hch, hb] at hres
      | nil =>
        cases hfo : fo with
        | none => simp [Get, hch, hb, hf, hfo] at hres
        | some f =>
          cases he : (f s.world.calls).2 with
          | some e2 =>
            simp [Get, hch, hb, hf, hfo, he] at hres
            refine ⟨hres.1.symm, by simp [Len, hch, hb], f, rfl, ?_⟩
            rw [he, hres.2]
          | none => simp [Get, hch, hb, hf, hfo, he] at hres
  refine ⟨?_, ?_, hsrc, ?_⟩
  · cases hch : s.pool.connsChan with
    | none => simp [bufOf, hch]
    | some ch => simpa [bufOf, hch] using (hgood ch hch).1
  · cases hch : s.pool.connsChan with
    | none => simp [Close, hch]
    | some ch => simpa [Close, hch] using drain_nil_free env ch.buf s.world (hgood ch hch).1
  · intro hext hopen q hres
    obtain ⟨_, _, g, hg, herr⟩ := hsrc hopen q Error.poolClosed hres
    exact hext g hg s.world.calls herr

/-- Witness of the amended C20: the pool of `NewChannelPool 1 2` with the
factory of fresh resources, after two acquisitions and the return of both
wrappers; the buffer then holds the resources 1 and 0, both entries non-nil,
and a pool `Close` issued then returns. -/
theorem buffer_nil_free_witness :
    (∀ c ∈ bufOf (run envOk (Sys.init poolOneOfTwo
        (NewChannelPool envOk 1 2 (some freshFactory) world0).2)
        [Op.get, Op.get, Op.wrapperClose 0, Op.wrapperClose 1]).pool, c ≠ none) ∧
      (Close envOk (run envOk (Sys.init poolOneOfTwo
        (NewChannelPool envOk 1 2 (some freshFactory) world0).2)
        [Op.get, Op.get, Op.wrapperClose 0, Op.wrapperClose 1]).pool
        (run envOk (Sys.init poolOneOfTwo
        (NewChannelPool envOk 1 2 (some freshFactory) world0).2)
        [Op.get, Op.get, Op.wrapperClose 0, Op.wrapperClose 1]).world).1 = Outcome.ok () :=
  have h := buffer_nil_free envOk 1 2 (some freshFactory) world0 poolOneOfTwo none
    (fun f hf k => by cases hf; simp [freshFactory])
    rfl [Op.get, Op.get, Op.wrapperClose 0, Op.wrapperClose 1]
  ⟨h.1, h.2.1⟩

/-! ## No double release without the overflow path -/

theorem connAt_lt {ws : List ConnWrapper} {i r : Nat} (h : connAt ws i = some r) :
    i < ws.length := by
  by_contra hge
  have hnone : ws[i]? = none := List.getElem?_eq_none (by omega)
  simp [connAt, hnone] at h

theorem connAt_append_old (ws : List ConnWrapper) (cw : ConnWrapper) {i : Nat}
    (h : i < ws.length) : connAt (ws ++ [cw]) i = connAt ws i := by
  simp [connAt, List.getElem?_append_left h]

theorem connAt_append_new (ws : List ConnWrapper) (cw : ConnWrapper) :
    connAt (ws ++ [cw]) ws.length = cw.conn := by
  simp [connAt]

theorem connAt_append_cases (ws : List ConnWrapper) (cw : ConnWrapper) {i r : Nat}
    (h : connAt (ws ++ [cw]) i = some r) :
    connAt ws i = some r ∨ (i = ws.length ∧ cw.conn = some r) := by
  have hlt := connAt_lt h
  simp only [List.length_append, List.length_singleton] at hlt
  by_cases hi : i < ws.length
  · left
    rw [← connAt_append_old ws cw hi]
    exact h
  · right
    have hi2 : i = ws.length := by omega
    subst hi2
    exact ⟨rfl, by rw [← connAt_append_new ws cw]; exact h⟩

theorem connAt_set_mark (ws : List ConnWrapper) (i j : Nat) (cw : ConnWrapper)
    (h : ws.get? i = some cw) : connAt (ws.set i cw.MarkUnusable) j = connAt ws j := by
  have h2 : ws[i]? = some cw := by simpa using h
  by_cases hij : i = j
  · subst hij
    have hlt : i < ws.length := by
      by_contra hge
      have hnone : ws[i]? = none := List.getElem?_eq_none (by omega)
      rw [hnone] at h2
      cases h2
    simp [connAt, h2, List.getElem?_set_self, hlt, ConnWrapper.MarkUnusable]
  · simp [connAt, List.getElem?_set_ne hij]

theorem Owned.mono {pre done done2 : List Nat} {s : Sys} (hsub : ∀ i, i ∈ done → i ∈ done2)
    (h : Owned pre done s) : Owned pre done2 s := by
  obtain ⟨rs, extra, hbuf, hcl, hrs, hex, hdis, hlive, huniq⟩ := h
  refine ⟨rs, extra, hbuf, hcl, hrs, hex, hdis, ?_, ?_⟩
  · intro i r hi
    exact hlive i r (fun hmem => hi (hsub i hmem))
  · intro i j r hi hj
    exact huniq i j r (fun hmem => hi (hsub i hmem)) (fun hmem => hj (hsub j hmem))

theorem Owned.congr {pre done : List Nat} {s t : Sys} (hp : bufOf t.pool = bufOf s.pool)
    (hw : t.world.closed = s.world.closed) (hc : ∀ i, connAt t.wrappers i = connAt s.wrappers i)
    (h : Owned pre done s) : Owned pre done t := by
  obtain ⟨rs, extra, hbuf, hcl, hrs, hex, hdis, hlive, huniq⟩ := h
  refine ⟨rs, extra, by rw [hp, hbuf], by rw [hw, hcl], hrs, hex, hdis, ?_, ?_⟩
  · intro i r hi hconn
    exact hlive i r hi (by rw [← hc i]; exact hconn)
  · intro i j r hi hj h1 h2
    exact huniq i j r hi hj (by rw [← hc i]; exact h1) (by rw [← hc j]; exact h2)

theorem nodup_snoc {l : List Nat} {r : Nat} (h : l.Nodup) (hr : r ∉ l) : (l ++ [r]).Nodup :=
  List.Nodup.append h (List.nodup_singleton r)
    (fun a ha hb => hr (by rw [← List.mem_singleton.mp hb]; exact ha))

theorem wrapperClose_nil (env : Env) (p : ChannelPool) (w : World) (cw : ConnWrapper)
    (hconn : cw.conn = none) : (cw.Close env p w).2 = (p, w) := by
  cases hu : cw.unusable <;> simp [ConnWrapper.Close, hu, hconn, put]

theorem wrapperClose_effect (env : Env) (p : ChannelPool) (w : World) (cw : ConnWrapper)
    (r : Nat) (hconn : cw.conn = some r) :
    (bufOf (cw.Close env p w).2.1 = bufOf p ++ [some r] ∧
        (cw.Close env p w).2.2.closed = w.closed) ∨
      (bufOf (cw.Close env p w).2.1 = bufOf p ∧
        (cw.Close env p w).2.2.closed = w.closed ++ [r]) := by
  cases hu : cw.unusable with
  | true =>
    right
    simp [ConnWrapper.Close, hu, hconn, resClose]
  | false =>
    cases hch : p.connsChan with
    | none =>
      right
      simp [ConnWrapper.Close, hu, hconn, put, hch, resClose]
    | some ch =>
      by_cases hlt : ch.buf.length < ch.cap
      · left
        simp [ConnWrapper.Close, hu, hconn, put, hch, hlt, bufOf]
      · right
        simp [ConnWrapper.Close, hu, hconn, put, hch, hlt, resClose]

theorem step_get_owned (env : Env) {pre done : List Nat} {s : Sys} (h : Owned pre done s)
    (hno : overflows s.pool = false) : Owned pre done (step env s Op.get) := by
  obtain ⟨rs, extra, hbuf, hcl, hrs, hex, hdis, hlive, huniq⟩ := h
  cases hch : s.pool.connsChan with
  | none =>
    have hstep : step env s Op.get = s := by simp [step, Get, hch]
    rw [hstep]
    exact ⟨rs, extra, hbuf, hcl, hrs, hex, hdis, hlive, huniq⟩
  | some ch =>
    have hb : ch.buf = rs.map some := by simpa [bufOf, hch] using hbuf
    cases rs with
    | nil => simp [overflows, hch, hb] at hno
    | cons r rest =>
      have hstep : step env s Op.get = Sys.mk
          (ChannelPool.mk (some (Chan.mk (rest.map some) ch.cap)) s.pool.instanceConn) s.world
          (s.wrappers ++ [wrapConn (some r)]) := by
        simp [step, Get, hch, hb]
      rw [hstep]
      have hnd := List.nodup_cons.mp hrs
      have hnew : ∀ x, (wrapConn (some r)).conn = some x → x = r := by
        intro x hx
        simpa [wrapConn] using hx.symm
      refine ⟨rest, extra, by simp [bufOf], hcl, hnd.2, hex,
        fun x hx => hdis x (List.mem_cons_of_mem _ hx), ?_, ?_⟩
      · intro i x hi hconn
        rcases connAt_append_cases _ _ hconn with hold | ⟨_, hn⟩
        · obtain ⟨h1, h2⟩ := hlive i x hi hold
          exact ⟨fun hm => h1 (List.mem_cons_of_mem _ hm), h2⟩
        · rw [hnew x hn]
          exact ⟨hnd.1, hdis r (List.mem_cons_self _ _)⟩
      · intro i j x hi hj h1 h2
        rcases connAt_append_cases _ _ h1 with ho1 | ⟨hi1, hn1⟩
        · rcases connAt_append_cases _ _ h2 with ho2 | ⟨_, hn2⟩
          · exact huniq i j x hi hj ho1 ho2
          · have hx := hnew x hn2
            exact absurd (by rw [hx]; exact List.mem_cons_self _ _) (hlive i x hi ho1).1
        · rcases connAt_append_cases _ _ h2 with ho2 | ⟨hj2, _⟩
          · have hx := hnew x hn1
            exact absurd (by rw [hx]; exact List.mem_cons_self _ _) (hlive j x hj ho2).1
          · rw [hi1, hj2]

theorem step_close_owned (env : Env) {pre done : List Nat} {s : Sys} (i : Nat)
    (h : Owned pre done s) (hi : i ∉ done) :
    Owned pre (i :: done) (step env s (Op.wrapperClose i)) := by
  cases hget : s.wrappers[i]? with
  | none =>
    have hstep : step env s (Op.wrapperClose i) = s := by simp [step, hget]
    rw [hstep]
    exact h.mono (fun j hj => List.mem_cons_of_mem _ hj)
  | some cw =>
    have hstep : step env s (Op.wrapperClose i) = Sys.mk (cw.Close env s.pool s.world).2.1
        (cw.Close env s.pool s.world).2.2 s.wrappers := by
      simp [step, hget]
    have hci : connAt s.wrappers i = cw.conn := by simp [connAt, hget]
    rw [hstep]
    cases hc : cw.conn with
    | none =>
      have hnil := wrapperClose_nil env s.pool s.world cw hc
      refine Owned.congr (s := s) ?_ ?_ (fun _ => rfl)
        (h.mono (fun j hj => List.mem_cons_of_mem _ hj)) <;> simp [hnil]
    | some r =>
      obtain ⟨rs, extra, hbuf, hcl, hrs, hex, hdis, hlive, huniq⟩ := h
      obtain ⟨hr1, hr2⟩ := hlive i r hi (by rw [hci, hc])
      have hother : ∀ j x, j ∉ i :: done → connAt s.wrappers j = some x → x ≠ r := by
        intro j x hj hx hxr
        have hj1 : j ∉ done := fun hm => hj (List.mem_cons_of_mem _ hm)
        have hji : j ≠ i := fun heq => hj (by rw [heq]; exact List.mem_cons_self _ _)
        rw [hxr] at hx
        exact hji (huniq j i r hj1 hi hx (by rw [hci, hc]))
      have hlive2 : ∀ j x, j ∉ i :: done → connAt s.wrappers j = some x →
          x ∉ rs ∧ x ∉ extra := fun j x hj hx =>
        hlive j x (fun hm => hj (List.mem_cons_of_mem _ hm)) hx
      have huniq2 : ∀ j k x, j ∉ i :: done → k ∉ i :: done →
          connAt s.wrappers j = some x → connAt s.wrappers k = some x → j = k :=
        fun j k x hj hk => huniq j k x (fun hm => hj (List.mem_cons_of_mem _ hm))
          (fun hm => hk (List.mem_cons_of_mem _ hm))
      rcases wrapperClose_effect env s.pool s.world cw r hc with ⟨hb, hw⟩ | ⟨hb, hw⟩
      · refine ⟨rs ++ [r], extra, by simp [hb, hbuf], by simp [hw, hcl],
          nodup_snoc hrs hr1, hex, ?_, ?_, huniq2⟩
        · intro x hx
          rcases List.mem_append.mp hx with h1 | h1
          · exact hdis x h1
          · rw [List.mem_singleton.mp h1]
            exact hr2
        · intro j x hj hx
          obtain ⟨h1, h2⟩ := hlive2 j x hj hx
          refine ⟨?_, h2⟩
          intro hm
          rcases List.mem_append.mp hm with h3 | h3
          · exact h1 h3
          · exact hother j x hj hx (List.mem_singleton.mp h3)
      · refine ⟨rs, extra ++ [r], by simp [hb, hbuf], by simp [hw, hcl],
          hrs, nodup_snoc hex hr2, ?_, ?_, huniq2⟩
        · intro x hx hm
          rcases List.mem_append.mp hm with h1 | h1
          · exact hdis x hx h1
          · rw [List.mem_singleton.mp h1] at hx
            exact hr1 hx
        · intro j x hj hx
          obtain ⟨h1, h2⟩ := hlive2 j x hj hx
          refine ⟨h1, ?_⟩
          intro hm
          rcases List.mem_append.mp hm with h3 | h3
          · exact h2 h3
          · exact hother j x hj hx (List.mem_singleton.mp h3)

theorem step_mark_owned (env : Env) {pre done : List Nat} {s : Sys} (i : Nat)
    (h : Owned pre done s) : Owned pre done (step env s (Op.markUnusable i)) := by
  cases hget : s.wrappers.get? i with
  | none =>
    have hstep : step env s (Op.markUnusable i) = s := by
      simp only [step, hget]
    rw [hstep]
    exact h
  | some cw =>
    have hstep : step env s (Op.markUnusable i)
        = Sys.mk s.pool s.world (s.wrappers.set i cw.MarkUnusable) := by
      simp only [step, hget]
    rw [hstep]
    exact Owned.congr (s := s) rfl rfl (fun j => connAt_set_mark s.wrappers i j cw hget) h

theorem step_poolClose_owned (env : Env) {pre done : List Nat} {s : Sys}
    (h : Owned pre done s) : Owned pre done (step env s Op.poolClose) := by
  obtain ⟨rs, extra, hbuf, hcl, hrs, hex, hdis, hlive, huniq⟩ := h
  have hstep : step env s Op.poolClose = Sys.mk (ChannelPool.mk none none)
      (World.mk s.world.calls (s.world.closed ++ rs)) s.wrappers := by
    cases hch : s.pool.connsChan with
    | none =>
      have hrs0 : rs = [] := by
        have : rs.map some = [] := by simpa [bufOf, hch] using hbuf.symm
        simpa using this
      simp [step, Close, hch, hrs0]
    | some ch =>
      have hb : ch.buf = rs.map some := by simpa [bufOf, hch] using hbuf
      simp [step, Close, hch, hb, drain_all]
  rw [hstep]
  refine ⟨[], extra ++ rs, by simp [bufOf], by simp [hcl], List.nodup_nil,
    List.Nodup.append hex hrs (fun a ha hb => hdis a hb ha), by simp, ?_, huniq⟩
  intro j x hj hx
  obtain ⟨h1, h2⟩ := hlive j x hj hx
  refine ⟨by simp, ?_⟩
  intro hm
  rcases List.mem_append.mp hm with h3 | h3
  · exact h2 h3
  · exact h1 h3

theorem run_owned (env : Env) {pre : List Nat} (ops : List Op) :
    ∀ (s : Sys) (done : List Nat), Owned pre done s → admissible env s done ops = true →
      ∃ done2, Owned pre done2 (run env s ops) := by
  induction ops with
  | nil => intro s done h _; exact ⟨done, h⟩
  | cons op rest ih =>
    intro s done h hadm
    cases op with
    | get =>
      simp only [admissible, Bool.and_eq_true, Bool.not_eq_true'] at hadm
      exact ih _ done (step_get_owned env h hadm.1) hadm.2
    | wrapperClose i =>
      simp only [admissible, Bool.and_eq_true, Bool.not_eq_true'] at hadm
      have hi : i ∉ done := by
        intro hm
        have hc : done.contains i = true := by simpa using hm
        rw [hadm.1] at hc
        cases hc
      exact ih _ (i :: done) (step_close_owned env i h hi) hadm.2
    | markUnusable i =>
      simp only [admissible] at hadm
      exact ih _ done (step_mark_owned env i h) hadm
    | poolClose =>
      simp only [admissible] at hadm
      exact ih _ done (step_poolClose_owned env h) hadm

theorem fillLoop_result (env : Env) (f : InstanceConn) (n : Nat) :
    ∀ (c : ChannelPool) (ch : Chan) (w : World) (p : ChannelPool) (e : Option Error),
      c.connsChan = some ch → (fillLoop env (some f) n c w).1 = Outcome.ok (some p, e) →
      p.connsChan = some (Chan.mk (ch.buf ++ produced f w.calls n) ch.cap) ∧
      ∀ i, i < n → (f (w.calls + i)).2 = none := by
  induction n with
  | zero =>
    intro c ch w p e hch h
    simp [fillLoop] at h
    rw [← h.1]
    simp [produced, hch]
  | succ n ih =>
    intro c ch w p e hch h
    cases he : (f w.calls).2 with
    | some err =>
      simp only [fillLoop, he] at h
      split at h <;> simp at h
    | none =>
      by_cases hlt : ch.buf.length < ch.cap
      · simp only [fillLoop, he, hch, hlt, if_true] at h
        obtain ⟨h1, h2⟩ := ih _ (Chan.mk (ch.buf ++ [(f w.calls).1]) ch.cap) _ p e rfl h
        refine ⟨?_, ?_⟩
        · rw [h1, produced_succ]
          simp
        · intro i hi
          cases i with
          | zero => simpa using he
          | succ j =>
            have := h2 j (by omega)
            simpa [Nat.add_assoc, Nat.add_comm 1 j] using this
      · simp [fillLoop, he, hch, hlt] at h

theorem newChannelPool_buffer (env : Env) (initial max : Int) (f : InstanceConn) (w : World)
    (p : ChannelPool) (e : Option Error)
    (h : (NewChannelPool env initial max (some f) w).1 = Outcome.ok (some p, e)) :
    ∃ n, bufOf p = produced f w.calls n ∧ ∀ i, i < n → (f (w.calls + i)).2 = none := by
  unfold NewChannelPool at h
  by_cases hbad : initial < 0 ∨ max ≤ 0 ∨ initial > max
  · simp [hbad] at h
  · rw [if_neg hbad] at h
    obtain ⟨h1, h2⟩ := fillLoop_result env f _ _ (Chan.mk [] max.toNat) w p e rfl h
    exact ⟨initial.toNat, by simp [bufOf, h1], h2⟩

theorem nodup_of_some (l : List Conn) :
    (∀ c ∈ l, c ≠ none) → l.Nodup → ∃ rs : List Nat, l = rs.map some ∧ rs.Nodup := by
  induction l with
  | nil => intro _ _; exact ⟨[], rfl, List.nodup_nil⟩
  | cons c t ih =>
    intro hnn hnd
    obtain ⟨hc, ht⟩ := List.nodup_cons.mp hnd
    obtain ⟨rs, hrs, hnd2⟩ := ih (fun x hx => hnn x (List.mem_cons_of_mem _ hx)) ht
    cases c with
    | none => exact absurd rfl (hnn none (List.mem_cons_self _ _))
    | some r =>
      refine ⟨r :: rs, by rw [hrs]; rfl, List.nodup_cons.mpr ⟨?_, hnd2⟩⟩
      intro hm
      exact hc (by rw [hrs]; exact List.mem_map.mpr ⟨r, hm, rfl⟩)

theorem produced_distinct (f : InstanceConn) (k n : Nat)
    (hnn : ∀ j, (f j).2 = none → (f j).1 ≠ none)
    (hinj : ∀ j j2, (f j).2 = none → (f j2).2 = none → (f j).1 = (f j2).1 → j = j2)
    (hok : ∀ i, i < n → (f (k + i)).2 = none) :
    ∃ rs : List Nat, produced f k n = rs.map some ∧ rs.Nodup := by
  apply nodup_of_some
  · intro c hc
    obtain ⟨i, hi, hci⟩ := List.mem_map.mp hc
    rw [← hci]
    exact hnn _ (hok i (List.mem_range.mp hi))
  · refine List.Nodup.map_on ?_ (List.nodup_range n)
    intro x hx y hy hxy
    have := hinj _ _ (hok x (List.mem_range.mp hx)) (hok y (List.mem_range.mp hy)) hxy
    omega

/-- C15: no double release away from the overflow path. For a pool returned
by `NewChannelPool` with a factory whose successful calls make pairwise
distinct non-nil resources, and every run of `Get`, `MarkUnusable`, wrapper
`Close` and pool `Close` that issues no `Get` on an open pool with an empty
buffer and closes each wrapper at most once, the resource-level closes made
during the run are pairwise distinct: no resource is released twice. -/
theorem no_double_release (env : Env) (initial max : Int) (f : InstanceConn) (w : World)
    (p : ChannelPool) (e : Option Error)
    (hnn : ∀ j, (f j).2 = none → (f j).1 ≠ none)
    (hinj : ∀ j j2, (f j).2 = none → (f j2).2 = none → (f j).1 = (f j2).1 → j = j2)
    (hnew : (NewChannelPool env initial max (some f) w).1 = Outcome.ok (some p, e))
    (ops : List Op)
    (hadm : admissible env (Sys.init p (NewChannelPool env initial max (some f) w).2) [] ops
      = true) :
    ∃ released : List Nat,
      (run env (Sys.init p (NewChannelPool env initial max (some f) w).2) ops).world.closed
        = (NewChannelPool env initial max (some f) w).2.closed ++ released ∧
      released.Nodup := by
  obtain ⟨n, hbuf, hok⟩ := newChannelPool_buffer env initial max f w p e hnew
  obtain ⟨rs, hrs, hnd⟩ := produced_distinct f w.calls n hnn hinj hok
  have hinit : Owned (NewChannelPool env initial max (some f) w).2.closed []
      (Sys.init p (NewChannelPool env initial max (some f) w).2) := by
    refine ⟨rs, [], by rw [← hrs, ← hbuf]; rfl, by simp [Sys.init], hnd, List.nodup_nil,
      by simp, ?_, ?_⟩
    · intro i r _ hc
      simp [Sys.init, connAt] at hc
    · intro i j r _ _ hc
      simp [Sys.init, connAt] at hc
  obtain ⟨done2, rs2, extra, _, hcl, _, hex, _⟩ := run_owned env ops _ [] hinit hadm
  exact ⟨extra, hcl, hex⟩

/-- Witness of C15: `NewChannelPool 2 3` with the factory of fresh resources;
both resources are acquired, the first wrapper is marked unusable, both
wrappers are closed once and the pool is shut down. -/
theorem no_double_release_witness :
    ∃ released : List Nat,
      (run envOk (Sys.init (ChannelPool.mk (some (Chan.mk [some 0, some 1] 3)) (some freshFactory))
        (NewChannelPool envOk 2 3 (some freshFactory) world0).2)
        [Op.get, Op.get, Op.markUnusable 0, Op.wrapperClose 0, Op.wrapperClose 1,
          Op.poolClose]).world.closed
        = (NewChannelPool envOk 2 3 (some freshFactory) world0).2.closed ++ released ∧
      released.Nodup :=
  no_double_release envOk 2 3 freshFactory world0
    (ChannelPool.mk (some (Chan.mk [some 0, some 1] 3)) (some freshFactory)) none
    (fun j _ => by simp [freshFactory])
    (fun j j2 _ _ h => by simpa [freshFactory] using h)
    rfl [Op.get, Op.get, Op.markUnusable 0, Op.wrapperClose 0, Op.wrapperClose 1, Op.poolClose]
    rfl

end GoPool
